import Mathlib

set_option maxHeartbeats 1000000

/-!
Verification development for the Ibo governance pallet
(`src/bin/node/runtime/src/ibo.rs` together with the constants in
`src/bin/node/runtime/src/constants.rs`).

Shallow embedding conventions:
* Machine integers (`u64`, `u128` balances and tallies) are `Nat` with
  explicit wrap-around (`% 2^64`, `% 2^128`) at exactly the operations the
  Rust source performs on those widths; release-profile Rust arithmetic
  wraps on overflow.
* The on-chain `u32` id generator is modelled faithfully: `generate_id`
  returns the current counter and stores `(counter + 1) % 2^32`, so after
  `2^32` creations ids repeat and a create overwrites the proposal stored
  under the reused id.
* Storage maps become association lists (insertion order is the iteration
  order used by `on_finalize`); `StorageValue` options become `Option`.
* A dispatch returns `Outcome`: `ok` with the new store, `err` with a
  domain error and the store unchanged, or `panic` for a Rust panic
  (`unwrap` on `None`, division by zero).  A panicking extrinsic never
  lands in a block, so `applyCall` leaves the store unchanged for both
  `err` and `panic`.
-/

namespace Ibo

abbrev AccountId := Nat
abbrev ProposalId := Nat
abbrev Bytes := List Nat

/-- Modulus of 32-bit machine arithmetic (the `u32` id generator wraps). -/
def U32 : Nat := 2 ^ 32

/-- Modulus of 64-bit machine arithmetic. -/
def U64 : Nat := 2 ^ 64

/-- Modulus of 128-bit machine arithmetic. -/
def U128 : Nat := 2 ^ 128

def u64add (a b : Nat) : Nat := (a + b) % U64

def u64mul (a b : Nat) : Nat := (a * b) % U64

/-- Wrapping `u64` subtraction (release-profile Rust `-`). -/
def u64sub (a b : Nat) : Nat := (a % U64 + U64 - b % U64) % U64

def u128add (a b : Nat) : Nat := (a + b) % U128

def u128mul (a b : Nat) : Nat := (a * b) % U128

/-- Wrapping `u128` subtraction (release-profile Rust `-`). -/
def u128sub (a b : Nat) : Nat := (a % U128 + U128 - b % U128) % U128

/-- `saturated_into::<u64>()`. -/
def sat64 (n : Nat) : Nat := min n (U64 - 1)

def TOTAL_REWARDS : Nat := 100000

def MAX_SUPPLY : Nat := 1000000000

def MINUTE : Nat := 1000 * 60

def ALLOW_MODIFY_DURATION : Nat := 1000 * 60 * 10

def REVIEW_DURATION : Nat := 1000 * 60 * 10

def VOTE_DURATION : Nat := 1000 * 60 * 10

def RECEIVE_REWARDS_DURATION : Nat := 1000 * 60 * 10

/-- `AGE_DAY`: the six `(VoteAge, LockPeriod)` rows from `constants.rs`. -/
def AGE_DAY : List (Nat × Nat) :=
  [(1000, MINUTE), (1500, 2 * MINUTE), (2250, 3 * MINUTE),
   (3375, 4 * MINUTE), (5000, 5 * MINUTE), (7600, 6 * MINUTE)]

inductive MarketType
  | Main
  | Growth
  | Off
deriving DecidableEq, Repr

inductive ProposalType
  | List
  | Delist
  | Rise
  | Fall
deriving DecidableEq, Repr

inductive ProposalState
  | Pending
  | Reviewing
  | Voting
  | Approved
  | Rejected
  | ApprovedClosed
  | RejectedClosed
deriving DecidableEq, Repr

structure TokenInfo where
  official_website_url : Bytes
  token_icon_url : Bytes
  token_name : Bytes
  token_symbol : Bytes
  max_supply : Nat
  circulating_supply : Nat
  current_market : MarketType
deriving DecidableEq, Repr

structure Proposal where
  id : ProposalId
  proposer : AccountId
  proposal_type : ProposalType
  official_website_url : Bytes
  token_icon_url : Bytes
  token_name : Bytes
  token_symbol : Bytes
  max_supply : Nat
  circulating_supply : Nat
  current_market : MarketType
  target_market : MarketType
  state : ProposalState
  review_goals : Nat × Nat
  vote_goals : Nat × Nat
  rewards_remainder : Nat
  timestamp : Nat
deriving DecidableEq, Repr

structure StakingInfo where
  proposal_id : ProposalId
  staking_amount : Nat
  age_idx : Nat
  wheather_received_reward : Bool
  timestamp : Nat
deriving DecidableEq, Repr

/-- Association-list lookup (model of a storage map read). -/
def alook {α β : Type} [DecidableEq α] : List (α × β) → α → Option β
  | [], _ => none
  | (k, v) :: rest, key => if k = key then some v else alook rest key

/-- Association-list insert-or-replace (model of a storage map insert). -/
def aput {α β : Type} [DecidableEq α] : List (α × β) → α → β → List (α × β)
  | [], key, val => [(key, val)]
  | (k, v) :: rest, key, val =>
      if k = key then (key, val) :: rest else (k, v) :: aput rest key val

/-- Association-list key removal (model of a storage map remove). -/
def adel {α β : Type} [DecidableEq α] : List (α × β) → α → List (α × β)
  | [], _ => []
  | (k, v) :: rest, key => if k = key then rest else (k, v) :: adel rest key

/-- The keys of an association list are pairwise distinct. -/
def keysDistinct {α β : Type} (l : List (α × β)) : Prop :=
  (l.map Prod.fst).Nodup

/-- `Vec::remove_item`: drop the first element equal to the given one. -/
def removeFirst : List StakingInfo → StakingInfo → List StakingInfo
  | [], _ => []
  | x :: rest, y => if x = y then rest else x :: removeFirst rest y

inductive IboError
  | TokenExists
  | TokenNotFound
  | ProposalNotFound
  | NotYourProposal
  | ProposalCannotBeReviewed
  | ProposalCannotBeVoted
  | ProposalNotForVoting
  | ProposalCannotBeModified
  | AlreadyReview
  | AlreadyVote
  | NotInCollective
  | CannotReceiveRewards
  | NoneStaking
  | InvalidVoteAge
  | AlreadyStaked
  | IllegalStakeTime
  | NoVote
  | StateNotForRewards
  | StakeNotMatch
  | StillInStaking
  | InsufficientIssuance
  | InsufficientFunds
deriving DecidableEq, Repr

/-- The balances collaborator: free and reserved funds plus total issuance. -/
structure Balances where
  free : List (AccountId × Nat)
  reserved : List (AccountId × Nat)
  issuance : Nat
deriving DecidableEq, Repr

def Balances.freeOf (b : Balances) (a : AccountId) : Nat :=
  (alook b.free a).getD 0

def Balances.reservedOf (b : Balances) (a : AccountId) : Nat :=
  (alook b.reserved a).getD 0

/-- `Currency::reserve`: move funds from free to reserved, or fail. -/
def Balances.reserve (b : Balances) (a : AccountId) (amount : Nat) :
    Except IboError Balances :=
  if amount ≤ b.freeOf a then
    .ok { b with free := aput b.free a (b.freeOf a - amount),
                 reserved := aput b.reserved a (b.reservedOf a + amount) }
  else .error .InsufficientFunds

/-- `Currency::unreserve`: move back `min amount reserved` to free. -/
def Balances.unreserve (b : Balances) (a : AccountId) (amount : Nat) : Balances :=
  let moved := min amount (b.reservedOf a)
  { b with free := aput b.free a (b.freeOf a + moved),
           reserved := aput b.reserved a (b.reservedOf a - moved) }

/-- `Currency::slash` followed by the drop of its imbalance. -/
def Balances.slashOf (b : Balances) (a : AccountId) (amount : Nat) : Balances :=
  let cut := min amount (b.freeOf a)
  { b with free := aput b.free a (b.freeOf a - cut),
           issuance := b.issuance - cut }

/-- `Currency::burn`: reduce total issuance (saturating). -/
def Balances.burnOf (b : Balances) (amount : Nat) : Balances :=
  { b with issuance := b.issuance - min amount b.issuance }

/-- The whole Ibo storage (`decl_storage!`) together with balances. -/
structure Store where
  proposals : List (ProposalId × Proposal)
  votingProposal : Option ProposalId
  tokens : List (Bytes × TokenInfo)
  reviewers : List (ProposalId × List AccountId)
  voters : List (ProposalId × List AccountId)
  staking : List (AccountId × List StakingInfo)
  idGenerator : Nat
  balances : Balances
deriving DecidableEq, Repr

/-- Genesis store: empty maps, unset singleton, counter 0, given balances. -/
def genesisStore (b : Balances) : Store :=
  { proposals := [], votingProposal := none, tokens := [], reviewers := [],
    voters := [], staking := [], idGenerator := 0, balances := b }

def Store.reviewersOf (s : Store) (id : ProposalId) : List AccountId :=
  (alook s.reviewers id).getD []

def Store.votersOf (s : Store) (id : ProposalId) : List AccountId :=
  (alook s.voters id).getD []

def Store.stakingOf (s : Store) (a : AccountId) : List StakingInfo :=
  (alook s.staking a).getD []

def stateOf (s : Store) (id : ProposalId) : Option ProposalState :=
  (alook s.proposals id).map Proposal.state

/-- External collaborators: the council membership list and the treasury
account id. -/
structure Env where
  council : List AccountId
  treasury : AccountId
deriving DecidableEq, Repr

/-- Result of dispatching one extrinsic. -/
inductive Outcome
  | ok : Store → Outcome
  | err : IboError → Outcome
  | panic : Outcome
deriving DecidableEq, Repr

/-- Free balance of an account after an `ok` outcome. -/
def outcomeFree (o : Outcome) (a : AccountId) : Option Nat :=
  match o with
  | .ok s => some (s.balances.freeOf a)
  | _ => none

/-- Proposal state under `id` after an `ok` outcome. -/
def outcomeState (o : Outcome) (id : ProposalId) : Option ProposalState :=
  match o with
  | .ok s => stateOf s id
  | _ => none

/-- `Module::get_staking_info`: first stake record for the proposal. -/
def get_staking_info (s : Store) (user : AccountId) (id : ProposalId) :
    Option StakingInfo :=
  (s.stakingOf user).find? (fun info => info.proposal_id == id)

/-- `Module::get_goals_from_staking`.  `AGE_DAY.get(age_idx).unwrap()`
panics when the index is out of range, hence the `Option`. -/
def get_goals_from_staking (stake : Nat) (age_idx : Nat) : Option Nat :=
  match AGE_DAY.get? age_idx with
  | some row => some (u128mul stake row.1)
  | none => none

/-- `Module::deposit_into_existing`: cap check, credit, issue. -/
def depositIntoExisting (b : Balances) (who : AccountId) (amount : Nat) :
    Except IboError Balances :=
  if amount ≤ u128sub MAX_SUPPLY b.issuance then
    .ok { b with free := aput b.free who (b.freeOf who + amount),
                 issuance := b.issuance + amount }
  else .error .InsufficientIssuance

/-- `Module::clone_from_token_info`. -/
def clone_from_token_info (id : ProposalId) (proposer : AccountId)
    (proposal_type : ProposalType) (target_market : MarketType)
    (rewards_remainder : Nat) (timestamp : Nat) (t : TokenInfo) : Proposal :=
  { id := id, proposer := proposer, proposal_type := proposal_type,
    official_website_url := t.official_website_url,
    token_icon_url := t.token_icon_url,
    token_name := t.token_name, token_symbol := t.token_symbol,
    max_supply := t.max_supply, circulating_supply := t.circulating_supply,
    current_market := t.current_market, target_market := target_market,
    state := .Pending, review_goals := (0, 0), vote_goals := (0, 0),
    rewards_remainder := rewards_remainder, timestamp := timestamp }

/-- `Module::clone_from_proposal`. -/
def clone_from_proposal (p : Proposal) : TokenInfo :=
  { official_website_url := p.official_website_url,
    token_icon_url := p.token_icon_url,
    token_name := p.token_name, token_symbol := p.token_symbol,
    max_supply := p.max_supply, circulating_supply := p.circulating_supply,
    current_market := p.target_market }

/-- The fresh proposal built by both `create_list_proposal` and
`update_list_proposal`. -/
def newListProposal (id : ProposalId) (proposer : AccountId)
    (url icon name symbol : Bytes) (max_supply circulating : Nat)
    (target : MarketType) (now : Nat) : Proposal :=
  { id := id, proposer := proposer, proposal_type := .List,
    official_website_url := url, token_icon_url := icon,
    token_name := name, token_symbol := symbol,
    max_supply := max_supply, circulating_supply := circulating,
    current_market := .Off, target_market := target,
    state := .Pending, review_goals := (0, 0), vote_goals := (0, 0),
    rewards_remainder := TOTAL_REWARDS, timestamp := now }

/-- `Module::update_proposal`. -/
def update_proposal (s : Store) (id : ProposalId) (proposer : AccountId)
    (newp : Proposal) : Outcome :=
  match alook s.proposals id with
  | none => .err .ProposalNotFound
  | some p =>
    if p.proposer ≠ proposer then .err .NotYourProposal
    else if p.state ≠ ProposalState.Pending then .err .ProposalCannotBeModified
    else .ok { s with proposals := aput s.proposals id newp }

/-- `Module::remove_proposal`. -/
def remove_proposal (s : Store) (id : ProposalId) (proposer : AccountId) :
    Outcome :=
  match alook s.proposals id with
  | none => .err .ProposalNotFound
  | some p =>
    if p.proposer ≠ proposer then .err .NotYourProposal
    else if p.state ≠ ProposalState.Pending then .err .ProposalCannotBeModified
    else .ok { s with proposals := adel s.proposals id }

/-- `create_list_proposal` dispatch. -/
def create_list_proposal (s : Store) (now : Nat) (caller : AccountId)
    (url icon name symbol : Bytes) (max_supply circulating : Nat)
    (target : MarketType) : Outcome :=
  if TOTAL_REWARDS ≤ u64sub MAX_SUPPLY (sat64 s.balances.issuance) then
    if (alook s.tokens name).isSome then .err .TokenExists
    else
      let id := s.idGenerator
      let p := newListProposal id caller url icon name symbol max_supply
        circulating target now
      .ok { s with idGenerator := (id + 1) % U32, proposals := aput s.proposals id p }
  else .err .InsufficientIssuance

/-- `update_list_proposal` dispatch. -/
def update_list_proposal (s : Store) (now : Nat) (caller : AccountId)
    (id : ProposalId) (url icon name symbol : Bytes)
    (max_supply circulating : Nat) (target : MarketType) : Outcome :=
  if (alook s.tokens name).isSome then .err .TokenExists
  else
    update_proposal s id caller
      (newListProposal id caller url icon name symbol max_supply circulating
        target now)

/-- `create_delist_proposal` dispatch. -/
def create_delist_proposal (s : Store) (now : Nat) (caller : AccountId)
    (name : Bytes) : Outcome :=
  if TOTAL_REWARDS ≤ u64sub MAX_SUPPLY (sat64 s.balances.issuance) then
    match alook s.tokens name with
    | none => .err .TokenNotFound
    | some t =>
      let id := s.idGenerator
      let p := clone_from_token_info id caller .Delist .Off TOTAL_REWARDS now t
      .ok { s with idGenerator := (id + 1) % U32, proposals := aput s.proposals id p }
  else .err .InsufficientIssuance

/-- `create_rise_proposal` dispatch (no issuance check, zero reward pool). -/
def create_rise_proposal (s : Store) (now : Nat) (caller : AccountId)
    (name : Bytes) : Outcome :=
  match alook s.tokens name with
  | none => .err .TokenNotFound
  | some t =>
    let id := s.idGenerator
    let p := clone_from_token_info id caller .Rise .Main 0 now t
    .ok { s with idGenerator := (id + 1) % U32, proposals := aput s.proposals id p }

/-- `create_fall_proposal` dispatch (no issuance check, zero reward pool). -/
def create_fall_proposal (s : Store) (now : Nat) (caller : AccountId)
    (name : Bytes) : Outcome :=
  match alook s.tokens name with
  | none => .err .TokenNotFound
  | some t =>
    let id := s.idGenerator
    let p := clone_from_token_info id caller .Fall .Growth 0 now t
    .ok { s with idGenerator := (id + 1) % U32, proposals := aput s.proposals id p }

/-- `review_proposal` dispatch. -/
def review_proposal (env : Env) (s : Store) (caller : AccountId)
    (id : ProposalId) (stand : Bool) : Outcome :=
  if ¬ env.council.contains caller then .err .NotInCollective
  else match alook s.proposals id with
  | none => .err .ProposalNotFound
  | some p =>
    if p.state ≠ ProposalState.Reviewing then .err .ProposalCannotBeReviewed
    else
      let revs := s.reviewersOf id
      if revs.contains caller then .err .AlreadyReview
      else
        let p' :=
          if stand then
            { p with review_goals := (u64add p.review_goals.1 1, p.review_goals.2) }
          else
            { p with review_goals := (p.review_goals.1, u64add p.review_goals.2 1) }
        .ok { s with reviewers := aput s.reviewers id (revs ++ [caller]),
                     proposals := aput s.proposals id p' }

/-- `vote_proposal` dispatch.  `get_goals_from_staking` panics on an
out-of-range age index. -/
def vote_proposal (s : Store) (now : Nat) (caller : AccountId)
    (id : ProposalId) (amount : Nat) (age_idx : Nat) (stand : Bool) : Outcome :=
  match alook s.proposals id with
  | none => .err .ProposalNotFound
  | some p =>
    if p.state ≠ ProposalState.Voting then .err .ProposalCannotBeVoted
    else
      let vs := s.votersOf id
      if vs.contains caller then .err .AlreadyVote
      else match s.balances.reserve caller amount with
      | .error e => .err e
      | .ok bal1 =>
        match get_goals_from_staking amount age_idx with
        | none => .panic
        | some goals =>
          let p' :=
            if stand then
              { p with vote_goals := (u128add p.vote_goals.1 goals, p.vote_goals.2) }
            else
              { p with vote_goals := (p.vote_goals.1, u128add p.vote_goals.2 goals) }
          let info : StakingInfo :=
            { proposal_id := id, staking_amount := amount, age_idx := age_idx,
              wheather_received_reward := false, timestamp := now }
          let infos := s.stakingOf caller
          .ok { s with balances := bal1,
                       voters := aput s.voters id (vs ++ [caller]),
                       proposals := aput s.proposals id p',
                       staking := aput s.staking caller (infos ++ [info]) }

/-- `receive_rewards` dispatch.  The `u128` division panics when the total
vote weight is zero. -/
def receive_rewards (s : Store) (caller : AccountId) (id : ProposalId) :
    Outcome :=
  if ¬ (s.votersOf id).contains caller then .err .NoVote
  else match alook s.proposals id with
  | none => .err .ProposalNotFound
  | some p =>
    if ¬ (p.state = ProposalState.Approved ∨ p.state = ProposalState.Rejected) then
      .err .StateNotForRewards
    else match get_staking_info s caller id with
    | none => .err .NoneStaking
    | some info =>
      match get_goals_from_staking info.staking_amount info.age_idx with
      | none => .panic
      | some goals =>
        let total_goals := u128add p.vote_goals.1 p.vote_goals.2
        if total_goals = 0 then .panic
        else
          let reward := u128mul TOTAL_REWARDS goals / total_goals
          match depositIntoExisting s.balances caller reward with
          | .error e => .err e
          | .ok bal1 =>
            let p' := { p with rewards_remainder := u128sub p.rewards_remainder reward }
            let infos := s.stakingOf caller
            let infos' := infos.map (fun i =>
              if i.proposal_id = id then { i with wheather_received_reward := true }
              else i)
            .ok { s with balances := bal1,
                         proposals := aput s.proposals id p',
                         staking := aput s.staking caller infos' }

/-- `unstake` dispatch. -/
def unstake (s : Store) (now : Nat) (caller : AccountId) (id : ProposalId) :
    Outcome :=
  match get_staking_info s caller id with
  | none => .err .NoneStaking
  | some info =>
    match AGE_DAY.get? info.age_idx with
    | none => .panic
    | some row =>
      if u64sub now info.timestamp < row.2 then .err .StillInStaking
      else
        let bal1 := s.balances.unreserve caller info.staking_amount
        let infos := s.stakingOf caller
        .ok { s with balances := bal1,
                     staking := aput s.staking caller (removeFirst infos info) }

/-- `burn` dispatch. -/
def burn_extrinsic (s : Store) (caller : AccountId) (amount : Nat) : Outcome :=
  .ok { s with balances := (s.balances.slashOf caller amount).burnOf amount }

/-- `Module::check_proposal_pending`. -/
def check_proposal_pending (s : Store) (id : ProposalId) (p : Proposal)
    (duration now : Nat) : Store :=
  if duration > ALLOW_MODIFY_DURATION then
    let p' := { p with state := ProposalState.Reviewing, timestamp := now }
    { s with proposals := aput s.proposals id p' }
  else s

/-- `Module::check_proposal_reviewed`.  Mirrors the source: Rise/Fall settle
directly; List/Delist first bail out when `VotingProposal` exists, then
apply their quorum. -/
def check_proposal_reviewed (s : Store) (id : ProposalId) (p : Proposal)
    (duration now : Nat) : Store :=
  if duration > REVIEW_DURATION then
    let sg := p.review_goals.1
    let og := p.review_goals.2
    let approvedP := { p with state := ProposalState.Approved, timestamp := now }
    let rejClosedP := { p with state := ProposalState.RejectedClosed, timestamp := now }
    let votingP := { p with state := ProposalState.Voting, timestamp := now }
    if p.proposal_type = ProposalType.Rise ∨ p.proposal_type = ProposalType.Fall then
      if sg ≥ u64mul 2 og ∧ u64add sg og > 0 then
        { s with tokens := aput s.tokens p.token_name (clone_from_proposal p),
                 proposals := aput s.proposals id approvedP }
      else
        { s with proposals := aput s.proposals id rejClosedP }
    else if s.votingProposal.isSome then s
    else if p.proposal_type = ProposalType.Delist then
      if sg > og then
        { s with votingProposal := some id,
                 proposals := aput s.proposals id votingP }
      else
        { s with proposals := aput s.proposals id rejClosedP }
    else
      if sg ≥ u64mul 2 og ∧ u64add sg og > 0 then
        { s with votingProposal := some id,
                 proposals := aput s.proposals id votingP }
      else
        { s with proposals := aput s.proposals id rejClosedP }
  else s

/-- `Module::check_proposal_voted`.  For a (unreachable) Rise/Fall proposal
in Voting the source's two `if`s both miss and the state is re-inserted
unchanged, still killing the singleton; the embedding keeps that. -/
def check_proposal_voted (s : Store) (id : ProposalId) (p : Proposal)
    (duration now : Nat) : Store :=
  if duration > VOTE_DURATION then
    let sg := p.vote_goals.1
    let og := p.vote_goals.2
    let outcome :=
      if p.proposal_type = ProposalType.List then
        if sg ≥ u128mul 2 og ∧ u128add sg og > 0 then
          (aput s.tokens p.token_name (clone_from_proposal p), ProposalState.Approved)
        else (s.tokens, ProposalState.Rejected)
      else if p.proposal_type = ProposalType.Delist then
        if sg > og then (adel s.tokens p.token_name, ProposalState.Approved)
        else (s.tokens, ProposalState.Rejected)
      else (s.tokens, p.state)
    let p' := { p with state := outcome.2, timestamp := now }
    { s with tokens := outcome.1,
             votingProposal := none,
             proposals := aput s.proposals id p' }
  else s

/-- `Module::check_proposal_closed`.  The result of the treasury deposit is
discarded by the source (`Self::deposit_into_existing(..);`): on failure the
balances stay as they were but the proposal still closes. -/
def check_proposal_closed (env : Env) (s : Store) (id : ProposalId)
    (p : Proposal) (duration now : Nat) : Store :=
  if duration > RECEIVE_REWARDS_DURATION then
    let st1 := if p.state = ProposalState.Approved then ProposalState.ApprovedClosed else p.state
    let st2 := if st1 = ProposalState.Rejected then ProposalState.RejectedClosed else st1
    let bal' :=
      match depositIntoExisting s.balances env.treasury p.rewards_remainder with
      | .ok b => b
      | .error _ => s.balances
    let p' := { p with state := st2, timestamp := now }
    { s with balances := bal',
             proposals := aput s.proposals id p' }
  else s

/-- `Module::deal_proposal`. -/
def deal_proposal (env : Env) (s : Store) (id : ProposalId) (p : Proposal)
    (now : Nat) : Store :=
  let duration := u64sub now p.timestamp
  match p.state with
  | .Pending => check_proposal_pending s id p duration now
  | .Reviewing => check_proposal_reviewed s id p duration now
  | .Voting => check_proposal_voted s id p duration now
  | .Approved => check_proposal_closed env s id p duration now
  | .Rejected => check_proposal_closed env s id p duration now
  | _ => s

/-- `on_finalize`: iterate all proposals (in storage order) and deal each. -/
def on_finalize (env : Env) (s : Store) (now : Nat) : Store :=
  s.proposals.foldl (fun acc e => deal_proposal env acc e.1 e.2 now) s

/-- One extrinsic of the pallet, with its signed caller. -/
inductive Call
  | create_list (caller : AccountId) (url icon name symbol : Bytes)
      (max_supply circulating : Nat) (target : MarketType)
  | update_list (caller : AccountId) (id : ProposalId)
      (url icon name symbol : Bytes) (max_supply circulating : Nat)
      (target : MarketType)
  | delete_list (caller : AccountId) (id : ProposalId)
  | create_delist (caller : AccountId) (name : Bytes)
  | delete_delist (caller : AccountId) (id : ProposalId)
  | create_rise (caller : AccountId) (name : Bytes)
  | delete_rise (caller : AccountId) (id : ProposalId)
  | create_fall (caller : AccountId) (name : Bytes)
  | delete_fall (caller : AccountId) (id : ProposalId)
  | review (caller : AccountId) (id : ProposalId) (stand : Bool)
  | vote (caller : AccountId) (id : ProposalId) (amount : Nat)
      (age_idx : Nat) (stand : Bool)
  | receiveRewardsCall (caller : AccountId) (id : ProposalId)
  | unstakeCall (caller : AccountId) (id : ProposalId)
  | burnCall (caller : AccountId) (amount : Nat)
deriving DecidableEq, Repr

/-- Dispatch one call against the store. -/
def dispatch (env : Env) (s : Store) (now : Nat) : Call → Outcome
  | .create_list caller url icon name symbol ms cs target =>
      create_list_proposal s now caller url icon name symbol ms cs target
  | .update_list caller id url icon name symbol ms cs target =>
      update_list_proposal s now caller id url icon name symbol ms cs target
  | .delete_list caller id => remove_proposal s id caller
  | .create_delist caller name => create_delist_proposal s now caller name
  | .delete_delist caller id => remove_proposal s id caller
  | .create_rise caller name => create_rise_proposal s now caller name
  | .delete_rise caller id => remove_proposal s id caller
  | .create_fall caller name => create_fall_proposal s now caller name
  | .delete_fall caller id => remove_proposal s id caller
  | .review caller id stand => review_proposal env s caller id stand
  | .vote caller id amount age_idx stand =>
      vote_proposal s now caller id amount age_idx stand
  | .receiveRewardsCall caller id => receive_rewards s caller id
  | .unstakeCall caller id => unstake s now caller id
  | .burnCall caller amount => burn_extrinsic s caller amount

/-- The store after a dispatch: failed or panicking extrinsics leave it
unchanged. -/
def applyCall (env : Env) (s : Store) (now : Nat) (c : Call) : Store :=
  match dispatch env s now c with
  | .ok s' => s'
  | _ => s

/-- Store states reachable from a genesis by extrinsics and end-of-block
hooks, at arbitrary block times. -/
inductive Reachable (env : Env) : Store → Prop
  | genesis (b : Balances) : Reachable env (genesisStore b)
  | extrinsic (s : Store) (now : Nat) (c : Call) :
      Reachable env s → Reachable env (applyCall env s now c)
  | finalize (s : Store) (now : Nat) :
      Reachable env s → Reachable env (on_finalize env s now)

/-- Number of proposals currently in `Voting` state. -/
def VotingCount (s : Store) : Nat :=
  (s.proposals.filter (fun e => e.2.state == ProposalState.Voting)).length

/-- Cardinality of the `VotingProposal` singleton. -/
def cardVP : Option ProposalId → Nat
  | none => 0
  | some _ => 1

/-- The `VotingProposal` singleton bounds the set of proposals in `Voting`
state: none when unset; when set, every Voting proposal carries its id.
(A wrapped id generator lets a create overwrite the Voting proposal, so the
singleton may be set with no Voting proposal left.) -/
def vpOk (ps : List (ProposalId × Proposal)) : Option ProposalId → Prop
  | none => ∀ e ∈ ps, e.2.state ≠ ProposalState.Voting
  | some v => ∀ e ∈ ps, e.2.state = ProposalState.Voting → e.1 = v

/-- The inductive invariant behind the at-most-one-vote claim: keys are
distinct, Voting proposals are List/Delist, and the singleton bounds the set
of Voting proposals.  No freshness of the id generator is assumed — the
`u32` counter wraps. -/
def Inv3 (ps : List (ProposalId × Proposal)) (vp : Option ProposalId) : Prop :=
  keysDistinct ps ∧
  (∀ e ∈ ps, e.2.state = ProposalState.Voting →
    e.2.proposal_type = ProposalType.List ∨ e.2.proposal_type = ProposalType.Delist) ∧
  vpOk ps vp

/-- The invariant, read off a whole store. -/
def Inv (s : Store) : Prop :=
  Inv3 s.proposals s.votingProposal

/-- A proposal value the scheduler will not touch again in the same block:
either closed, or its phase guard fails, or it is a List/Delist review
deferred behind a set `VotingProposal`. -/
def inert (vpSet : Bool) (now : Nat) (q : Proposal) : Prop :=
  match q.state with
  | .Pending => ¬ (u64sub now q.timestamp > ALLOW_MODIFY_DURATION)
  | .Reviewing => ¬ (u64sub now q.timestamp > REVIEW_DURATION) ∨
      ((q.proposal_type = ProposalType.List ∨ q.proposal_type = ProposalType.Delist) ∧
        vpSet = true)
  | .Voting => ¬ (u64sub now q.timestamp > VOTE_DURATION)
  | .Approved => ¬ (u64sub now q.timestamp > RECEIVE_REWARDS_DURATION)
  | .Rejected => ¬ (u64sub now q.timestamp > RECEIVE_REWARDS_DURATION)
  | .ApprovedClosed => True
  | .RejectedClosed => True

/-! ### Concrete stores and traces used by witnesses, code-bug theorems and
counterexamples. -/

/-- Empty balance sheet. -/
def bEmpty : Balances := { free := [], reserved := [], issuance := 0 }

/-- Example environment: account 3 is the single council member, account 99
is the treasury. -/
def exEnv : Env := { council := [3], treasury := 99 }

/-- A List proposal sitting in `Voting` state (base for the examples). -/
def exVoting : Proposal :=
  { id := 0, proposer := 1, proposal_type := .List, official_website_url := [],
    token_icon_url := [], token_name := [1], token_symbol := [], max_supply := 0,
    circulating_supply := 0, current_market := .Off, target_market := .Growth,
    state := .Voting, review_goals := (1, 0), vote_goals := (0, 0),
    rewards_remainder := TOTAL_REWARDS, timestamp := 0 }

/-- C6: a store holding `exVoting` and an account 8 rich enough to vote. -/
def c6Store : Store :=
  { proposals := [(0, exVoting)], votingProposal := some 0, tokens := [],
    reviewers := [], voters := [], staking := [], idGenerator := 1,
    balances := { free := [(8, 10000)], reserved := [], issuance := 10000 } }

/-- C1: an Approved proposal whose voter 7 already drew the reward
(`wheather_received_reward = true`, 90909 units already credited). -/
def c1Proposal : Proposal :=
  { exVoting with state := .Approved, vote_goals := (1000000, 100000),
                  rewards_remainder := 9091 }

def c1Stake : StakingInfo :=
  { proposal_id := 0, staking_amount := 1000, age_idx := 0,
    wheather_received_reward := true, timestamp := 0 }

def c1Store : Store :=
  { proposals := [(0, c1Proposal)], votingProposal := none, tokens := [],
    reviewers := [], voters := [(0, [7])], staking := [(7, [c1Stake])],
    idGenerator := 1,
    balances := { free := [(7, 90909)], reserved := [], issuance := 200000 } }

/-- C3: a Delist proposal in Reviewing with a failed quorum (0 vs 0), its
review window expired, while proposal 9 holds the `VotingProposal`
singleton. -/
def c3Delist : Proposal :=
  { exVoting with id := 1, proposal_type := .Delist, state := .Reviewing,
                  review_goals := (0, 0), timestamp := 0 }

def c3Other : Proposal := { exVoting with id := 9, timestamp := 600000 }

def c3Store : Store :=
  { proposals := [(1, c3Delist), (9, c3Other)], votingProposal := some 9,
    tokens := [], reviewers := [], voters := [], staking := [],
    idGenerator := 10, balances := bEmpty }

/-- C5: an Approved proposal with a residual reward pool of 500 while the
issuance already sits at `MAX_SUPPLY`, so the treasury deposit must fail. -/
def c5Proposal : Proposal :=
  { c1Proposal with rewards_remainder := 500, timestamp := 0 }

def c5Store : Store :=
  { proposals := [(0, c5Proposal)], votingProposal := none, tokens := [],
    reviewers := [], voters := [], staking := [], idGenerator := 1,
    balances := { free := [], reserved := [], issuance := MAX_SUPPLY } }

/-- C7: proposal 3 is an expired quorum-passing List review, proposal 5 an
expired List vote holding the singleton. -/
def c7Review : Proposal :=
  { exVoting with id := 3, state := .Reviewing, review_goals := (1, 0),
                  timestamp := 0 }

def c7Voting : Proposal :=
  { exVoting with id := 5, state := .Voting, vote_goals := (0, 0),
                  timestamp := 0 }

def c7Store : Store :=
  { proposals := [(3, c7Review), (5, c7Voting)], votingProposal := some 5,
    tokens := [], reviewers := [], voters := [], staking := [],
    idGenerator := 10, balances := bEmpty }

/-- C8: voter 7 staked 500 on proposal 0 at t = 1000 with age index 2
(lock period 3 minutes). -/
def c8Stake : StakingInfo :=
  { proposal_id := 0, staking_amount := 500, age_idx := 2,
    wheather_received_reward := false, timestamp := 1000 }

def c8Store : Store :=
  { proposals := [(0, c1Proposal)], votingProposal := none, tokens := [],
    reviewers := [], voters := [(0, [7])], staking := [(7, [c8Stake])],
    idGenerator := 1,
    balances := { free := [], reserved := [(7, 500)], issuance := 1000 } }

/-- C10: a Pending Delist proposal owned by account 1, stored while the
total issuance already equals `MAX_SUPPLY` (so `create_list_proposal`
would refuse). -/
def c10Proposal : Proposal :=
  { exVoting with proposal_type := .Delist, state := .Pending }

def c10Store : Store :=
  { proposals := [(0, c10Proposal)], votingProposal := none, tokens := [],
    reviewers := [], voters := [], staking := [], idGenerator := 1,
    balances := { free := [], reserved := [], issuance := MAX_SUPPLY } }

/-- C4 witness store: the spec scenario after the List vote closed.
Supporter 7 staked 1000 at age 0 (weight 1000000), opponent 8 staked 100 at
age 0 (weight 100000); the proposal was approved. -/
def c4Stake : StakingInfo :=
  { proposal_id := 0, staking_amount := 1000, age_idx := 0,
    wheather_received_reward := false, timestamp := 0 }

def c4Store : Store :=
  { proposals := [(0, { c1Proposal with rewards_remainder := TOTAL_REWARDS })],
    votingProposal := none, tokens := [], reviewers := [],
    voters := [(0, [7, 8])], staking := [(7, [c4Stake])], idGenerator := 1,
    balances := { free := [(7, 0)], reserved := [(7, 1000)], issuance := 200000 } }

/-- C9 trace, step 1: account 1 creates a List proposal at t = 0. -/
def c9s1 : Store :=
  applyCall exEnv (genesisStore bEmpty) 0
    (.create_list 1 [10] [11] [12] [13] 500 100 .Growth)

/-- C9 trace, step 2: scheduler moves it to Reviewing. -/
def c9s2 : Store := on_finalize exEnv c9s1 600001

/-- C9 trace, step 3: council member 3 reviews in support. -/
def c9s3 : Store := applyCall exEnv c9s2 600002 (.review 3 0 true)

/-- C9 trace, step 4: scheduler moves it to Voting. -/
def c9s4 : Store := on_finalize exEnv c9s3 1200003

/-- C9 trace, step 5: account 2 votes support with `amount = 0`. -/
def c9s5 : Store := applyCall exEnv c9s4 1200004 (.vote 2 0 0 0 true)

/-- C9 trace, step 6: scheduler closes the vote; total weight is 0, so the
List quorum fails and the proposal lands in Rejected with a voter list. -/
def c9s6 : Store := on_finalize exEnv c9s5 1800005

/-- The create dispatch used to exhaust the `u32` id generator (same
arguments as the one that created proposal 0). -/
def spamCall : Call :=
  Call.create_list 1 [10] [11] [12] [13] 500 100 MarketType.Growth

/-- Repeat the `spamCall` create dispatch `n` times at a fixed block time. -/
def spam : Nat → Store → Store
  | 0, s => s
  | n + 1, s => applyCall exEnv (spam n s) 1200004 spamCall


/-! ### Association-list lemmas -/

theorem alook_aput_self {α β : Type} [DecidableEq α] (l : List (α × β)) (k : α) (v : β) :
    alook (aput l k v) k = some v := by
  induction l with
  | nil => simp [aput, alook]
  | cons e rest ih =>
    obtain ⟨a, b⟩ := e
    by_cases h : a = k
    · simp [aput, h, alook]
    · simp [aput, h, alook, ih]

theorem alook_aput_ne {α β : Type} [DecidableEq α] (l : List (α × β)) (k : α) (v : β)
    (k' : α) (h : k' ≠ k) : alook (aput l k v) k' = alook l k' := by
  induction l with
  | nil => simp [aput, alook, Ne.symm h]
  | cons e rest ih =>
    obtain ⟨a, b⟩ := e
    by_cases hak : a = k
    · subst hak
      simp only [aput, if_pos rfl]
      by_cases hk' : a = k'
      · exact absurd hk'.symm h
      · simp [alook, hk']
    · simp only [aput, if_neg hak]
      by_cases hk' : a = k'
      · simp [alook, hk']
      · simp [alook, hk', ih]

theorem mem_aput {α β : Type} [DecidableEq α] {l : List (α × β)} {k : α} {v : β}
    {e : α × β} (h : e ∈ aput l k v) : e = (k, v) ∨ e ∈ l := by
  induction l with
  | nil => simpa [aput] using h
  | cons f rest ih =>
    obtain ⟨a, b⟩ := f
    by_cases hak : a = k
    · simp only [aput, if_pos hak, List.mem_cons] at h
      rcases h with h1 | h1
      · exact Or.inl h1
      · exact Or.inr (List.mem_cons_of_mem _ h1)
    · simp only [aput, if_neg hak, List.mem_cons] at h
      rcases h with h | h
      · exact Or.inr (h ▸ List.mem_cons_self _ _)
      · rcases ih h with h' | h'
        · exact Or.inl h'
        · exact Or.inr (List.mem_cons_of_mem _ h')

theorem alook_mem {α β : Type} [DecidableEq α] {l : List (α × β)} {k : α} {v : β}
    (h : alook l k = some v) : (k, v) ∈ l := by
  induction l with
  | nil => simp [alook] at h
  | cons f rest ih =>
    obtain ⟨a, b⟩ := f
    by_cases hak : a = k
    · simp only [alook, if_pos hak, Option.some.injEq] at h
      subst hak
      subst h
      exact List.mem_cons_self _ _
    · simp only [alook, if_neg hak] at h
      exact List.mem_cons_of_mem _ (ih h)

theorem mem_alook {α β : Type} [DecidableEq α] {l : List (α × β)}
    (hD : keysDistinct l) {e : α × β} (he : e ∈ l) : alook l e.1 = some e.2 := by
  induction l with
  | nil => cases he
  | cons f rest ih =>
    obtain ⟨a, b⟩ := f
    simp only [keysDistinct, List.map_cons, List.nodup_cons] at hD
    rcases List.mem_cons.mp he with h | h
    · subst h
      simp [alook]
    · have hne : a ≠ e.1 := by
        intro hc
        exact hD.1 (hc ▸ List.mem_map_of_mem Prod.fst h)
      simp only [alook, if_neg hne]
      exact ih hD.2 h

theorem alook_eq_none {α β : Type} [DecidableEq α] {l : List (α × β)} {k : α}
    (h : ∀ e ∈ l, e.1 ≠ k) : alook l k = none := by
  induction l with
  | nil => simp [alook]
  | cons f rest ih =>
    obtain ⟨a, b⟩ := f
    have hak : a ≠ k := h (a, b) (List.mem_cons_self _ _)
    simp only [alook, if_neg hak]
    exact ih (fun e he => h e (List.mem_cons_of_mem _ he))

theorem aput_of_alook_none {α β : Type} [DecidableEq α] {l : List (α × β)} {k : α}
    (h : alook l k = none) (v : β) : aput l k v = l ++ [(k, v)] := by
  induction l with
  | nil => simp [aput]
  | cons f rest ih =>
    obtain ⟨a, b⟩ := f
    by_cases hak : a = k
    · simp [alook, hak] at h
    · simp only [alook, if_neg hak] at h
      simp [aput, hak, ih h]

theorem mem_keys_aput {α β : Type} [DecidableEq α] {l : List (α × β)} {k : α} {v : β}
    {x : α} (h : x ∈ (aput l k v).map Prod.fst) : x = k ∨ x ∈ l.map Prod.fst := by
  rcases List.mem_map.mp h with ⟨e, he, hx⟩
  rcases mem_aput he with h' | h'
  · exact Or.inl (by rw [← hx, h'])
  · exact Or.inr (hx ▸ List.mem_map_of_mem Prod.fst h')

theorem keysDistinct_aput {α β : Type} [DecidableEq α] {l : List (α × β)}
    (hD : keysDistinct l) (k : α) (v : β) : keysDistinct (aput l k v) := by
  induction l with
  | nil => simp [aput, keysDistinct]
  | cons f rest ih =>
    obtain ⟨a, b⟩ := f
    simp only [keysDistinct, List.map_cons, List.nodup_cons] at hD
    by_cases hak : a = k
    · simp only [aput, if_pos hak, keysDistinct, List.map_cons, List.nodup_cons]
      exact ⟨hak ▸ hD.1, hD.2⟩
    · simp only [aput, if_neg hak, keysDistinct, List.map_cons, List.nodup_cons]
      refine ⟨fun hmem => ?_, ih hD.2⟩
      rcases mem_keys_aput hmem with h' | h'
      · exact hak h'
      · exact hD.1 h'

theorem mem_adel {α β : Type} [DecidableEq α] {l : List (α × β)} {k : α} {e : α × β}
    (h : e ∈ adel l k) : e ∈ l := by
  induction l with
  | nil => simp [adel] at h
  | cons f rest ih =>
    obtain ⟨a, b⟩ := f
    by_cases hak : a = k
    · simp only [adel, if_pos hak] at h
      exact List.mem_cons_of_mem _ h
    · simp only [adel, if_neg hak, List.mem_cons] at h
      rcases h with h | h
      · exact h ▸ List.mem_cons_self _ _
      · exact List.mem_cons_of_mem _ (ih h)

theorem adel_sublist {α β : Type} [DecidableEq α] (l : List (α × β)) (k : α) :
    (adel l k).Sublist l := by
  induction l with
  | nil => simp [adel]
  | cons f rest ih =>
    obtain ⟨a, b⟩ := f
    by_cases hak : a = k
    · simp only [adel, if_pos hak]
      exact List.sublist_cons_self _ _
    · simp only [adel, if_neg hak]
      exact ih.cons₂ _

theorem keysDistinct_adel {α β : Type} [DecidableEq α] {l : List (α × β)}
    (hD : keysDistinct l) (k : α) : keysDistinct (adel l k) :=
  List.Nodup.sublist ((adel_sublist l k).map Prod.fst) hD

theorem alook_adel_ne {α β : Type} [DecidableEq α] (l : List (α × β)) (k k' : α)
    (h : k' ≠ k) : alook (adel l k) k' = alook l k' := by
  induction l with
  | nil => simp [adel]
  | cons f rest ih =>
    obtain ⟨a, b⟩ := f
    by_cases hak : a = k
    · subst hak
      simp only [adel, if_pos rfl]
      have : a ≠ k' := Ne.symm h
      simp [alook, this]
    · simp only [adel, if_neg hak]
      by_cases hk' : a = k'
      · simp [alook, hk']
      · simp [alook, hk', ih]

theorem alook_append_of_some {α β : Type} [DecidableEq α] {l₁ : List (α × β)}
    (l₂ : List (α × β)) {k : α} {v : β} (h : alook l₁ k = some v) :
    alook (l₁ ++ l₂) k = some v := by
  induction l₁ with
  | nil => simp [alook] at h
  | cons f rest ih =>
    obtain ⟨a, b⟩ := f
    by_cases hak : a = k
    · simp only [alook, if_pos hak] at h ⊢
      exact h
    · simp only [alook, if_neg hak] at h ⊢
      exact ih h

/-! ### Wrapping-arithmetic lemmas -/

theorem u64sub_self (a : Nat) : u64sub a a = 0 := by
  simp [u64sub, Nat.add_sub_cancel_left]

theorem u64sub_eq_sub {a b : Nat} (h1 : b ≤ a) (h2 : a < U64) :
    u64sub a b = a - b := by
  have hb : b < U64 := lt_of_le_of_lt h1 h2
  unfold u64sub
  rw [Nat.mod_eq_of_lt h2, Nat.mod_eq_of_lt hb]
  have h3 : a + U64 - b = (a - b) + U64 := by omega
  rw [h3, Nat.add_mod_right, Nat.mod_eq_of_lt (by omega)]

theorem u128sub_eq_sub {a b : Nat} (h1 : b ≤ a) (h2 : a < U128) :
    u128sub a b = a - b := by
  have hb : b < U128 := lt_of_le_of_lt h1 h2
  unfold u128sub
  rw [Nat.mod_eq_of_lt h2, Nat.mod_eq_of_lt hb]
  have h3 : a + U128 - b = (a - b) + U128 := by omega
  rw [h3, Nat.add_mod_right, Nat.mod_eq_of_lt (by omega)]

theorem u128mul_eq_mul {a b : Nat} (h : a * b < U128) : u128mul a b = a * b :=
  Nat.mod_eq_of_lt h

theorem u128add_eq_add {a b : Nat} (h : a + b < U128) : u128add a b = a + b :=
  Nat.mod_eq_of_lt h

/-! ### Invariant preservation: core update lemmas -/

theorem inv3_put_nonvoting {ps : List (ProposalId × Proposal)}
    {vp : Option ProposalId} {id : ProposalId} {q : Proposal}
    (h : Inv3 ps vp) (hq : q.state ≠ ProposalState.Voting) :
    Inv3 (aput ps id q) vp := by
  obtain ⟨hD, hT, hV⟩ := h
  refine ⟨keysDistinct_aput hD id q, ?_, ?_⟩
  · intro e he hst
    rcases mem_aput he with h1 | h1
    · rw [h1] at hst; exact absurd hst hq
    · exact hT e h1 hst
  · cases vp with
    | none =>
      simp only [vpOk] at hV ⊢
      intro e he hst
      rcases mem_aput he with h1 | h1
      · rw [h1] at hst; exact hq hst
      · exact hV e h1 hst
    | some v =>
      simp only [vpOk] at hV ⊢
      intro e he hst
      rcases mem_aput he with h1 | h1
      · rw [h1] at hst; exact absurd hst hq
      · exact hV e h1 hst

theorem inv3_update_same {ps : List (ProposalId × Proposal)}
    {vp : Option ProposalId} {id : ProposalId} {p q : Proposal}
    (h : Inv3 ps vp) (hl : alook ps id = some p)
    (hst : q.state = p.state) (hty : q.proposal_type = p.proposal_type) :
    Inv3 (aput ps id q) vp := by
  obtain ⟨hD, hT, hV⟩ := h
  have hmem : (id, p) ∈ ps := alook_mem hl
  refine ⟨keysDistinct_aput hD id q, ?_, ?_⟩
  · intro e he hs
    rcases mem_aput he with h1 | h1
    · rw [h1] at hs
      simp only at hs
      rw [hst] at hs
      have := hT (id, p) hmem hs
      rw [h1]
      simpa [hty] using this
    · exact hT e h1 hs
  · cases vp with
    | none =>
      simp only [vpOk] at hV ⊢
      intro e he hs
      rcases mem_aput he with h1 | h1
      · rw [h1] at hs
        simp only at hs
        rw [hst] at hs
        exact hV (id, p) hmem hs
      · exact hV e h1 hs
    | some v =>
      simp only [vpOk] at hV ⊢
      intro e he hs
      rcases mem_aput he with h1 | h1
      · rw [h1] at hs
        simp only at hs
        rw [hst] at hs
        have := hV (id, p) hmem hs
        rw [h1]
        exact this
      · exact hV e h1 hs

theorem inv3_delete {ps : List (ProposalId × Proposal)} {vp : Option ProposalId}
    {id : ProposalId} (h : Inv3 ps vp) : Inv3 (adel ps id) vp := by
  obtain ⟨hD, hT, hV⟩ := h
  refine ⟨keysDistinct_adel hD id, fun e he hst => hT e (mem_adel he) hst, ?_⟩
  cases vp with
  | none =>
    simp only [vpOk] at hV ⊢
    exact fun e he hst => hV e (mem_adel he) hst
  | some v =>
    simp only [vpOk] at hV ⊢
    exact fun e he hst => hV e (mem_adel he) hst

theorem inv3_to_voting {ps : List (ProposalId × Proposal)}
    {id : ProposalId} {q : Proposal} (h : Inv3 ps none)
    (hq : q.state = ProposalState.Voting)
    (hqt : q.proposal_type = ProposalType.List ∨ q.proposal_type = ProposalType.Delist) :
    Inv3 (aput ps id q) (some id) := by
  obtain ⟨hD, hT, hV⟩ := h
  simp only [vpOk] at hV
  refine ⟨keysDistinct_aput hD id q, ?_, ?_⟩
  · intro e he hst
    rcases mem_aput he with h1 | h1
    · rw [h1]; exact hqt
    · exact absurd hst (hV e h1)
  · simp only [vpOk]
    intro e he hst
    rcases mem_aput he with h1 | h1
    · rw [h1]
    · exact absurd hst (hV e h1)

theorem inv3_from_voting {ps : List (ProposalId × Proposal)}
    {vp : Option ProposalId} {id : ProposalId} {p q : Proposal}
    (h : Inv3 ps vp) (hl : alook ps id = some p)
    (hp : p.state = ProposalState.Voting) (hq : q.state ≠ ProposalState.Voting) :
    Inv3 (aput ps id q) none := by
  obtain ⟨hD, hT, hV⟩ := h
  have hmem : (id, p) ∈ ps := alook_mem hl
  refine ⟨keysDistinct_aput hD id q, ?_, ?_⟩
  · intro e he hst
    rcases mem_aput he with h1 | h1
    · rw [h1] at hst; exact absurd hst hq
    · exact hT e h1 hst
  · simp only [vpOk]
    intro e he hst
    rcases mem_aput he with h1 | h1
    · rw [h1] at hst; exact hq hst
    · -- an old Voting entry would share the replaced entry's key
      cases vp with
      | none =>
        simp only [vpOk] at hV
        exact absurd hst (hV e h1)
      | some v =>
        simp only [vpOk] at hV
        have hv : id = v := hV (id, p) hmem hp
        have hev : e.1 = v := hV e h1 hst
        have heid : e.1 = id := by rw [hev, ← hv]
        have := mem_alook (keysDistinct_aput hD id q) he
        rw [heid, alook_aput_self] at this
        injection this with h2
        rw [← h2] at hst
        exact hq hst

/-! ### Invariant preservation: extrinsics -/

theorem inv_update_proposal {s : Store} {id : ProposalId} {proposer : AccountId}
    {newp : Proposal} {s' : Store} (hInv : Inv s)
    (hq : newp.state ≠ ProposalState.Voting)
    (h : update_proposal s id proposer newp = .ok s') : Inv s' := by
  unfold update_proposal at h
  cases heq : alook s.proposals id with
  | none =>
    simp only [heq] at h
    exact Outcome.noConfusion h
  | some p =>
    simp only [heq] at h
    split_ifs at h with h1 h2
    all_goals try exact Outcome.noConfusion h
    injection h with h3
    subst h3
    exact inv3_put_nonvoting hInv hq

theorem inv_remove_proposal {s : Store} {id : ProposalId} {proposer : AccountId}
    {s' : Store} (hInv : Inv s) (h : remove_proposal s id proposer = .ok s') :
    Inv s' := by
  unfold remove_proposal at h
  cases heq : alook s.proposals id with
  | none =>
    simp only [heq] at h
    exact Outcome.noConfusion h
  | some p =>
    simp only [heq] at h
    split_ifs at h with h1 h2
    all_goals try exact Outcome.noConfusion h
    injection h with h3
    subst h3
    exact inv3_delete hInv

theorem inv_create_list {s : Store} {now : Nat} {caller : AccountId}
    {url icon name symbol : Bytes} {ms cs : Nat} {target : MarketType} {s' : Store}
    (hInv : Inv s)
    (h : create_list_proposal s now caller url icon name symbol ms cs target = .ok s') :
    Inv s' := by
  simp only [create_list_proposal] at h
  split_ifs at h
  all_goals first
  | exact Outcome.noConfusion h
  | (injection h with h3
     subst h3
     exact inv3_put_nonvoting hInv (fun hc => ProposalState.noConfusion hc))

theorem inv_update_list {s : Store} {now : Nat} {caller : AccountId}
    {id : ProposalId} {url icon name symbol : Bytes} {ms cs : Nat}
    {target : MarketType} {s' : Store} (hInv : Inv s)
    (h : update_list_proposal s now caller id url icon name symbol ms cs target = .ok s') :
    Inv s' := by
  simp only [update_list_proposal] at h
  split_ifs at h
  all_goals first
  | exact Outcome.noConfusion h
  | exact inv_update_proposal hInv (fun hc => ProposalState.noConfusion hc) h

theorem inv_create_delist {s : Store} {now : Nat} {caller : AccountId}
    {name : Bytes} {s' : Store} (hInv : Inv s)
    (h : create_delist_proposal s now caller name = .ok s') : Inv s' := by
  simp only [create_delist_proposal] at h
  cases htok : alook s.tokens name with
  | none =>
    simp only [htok] at h
    split_ifs at h
    all_goals exact Outcome.noConfusion h
  | some t =>
    simp only [htok] at h
    split_ifs at h
    all_goals first
    | exact Outcome.noConfusion h
    | (injection h with h3
       subst h3
       exact inv3_put_nonvoting hInv (fun hc => ProposalState.noConfusion hc))

theorem inv_create_rise {s : Store} {now : Nat} {caller : AccountId}
    {name : Bytes} {s' : Store} (hInv : Inv s)
    (h : create_rise_proposal s now caller name = .ok s') : Inv s' := by
  simp only [create_rise_proposal] at h
  cases htok : alook s.tokens name with
  | none =>
    simp only [htok] at h
    exact Outcome.noConfusion h
  | some t =>
    simp only [htok] at h
    injection h with h3
    subst h3
    exact inv3_put_nonvoting hInv (fun hc => ProposalState.noConfusion hc)

theorem inv_create_fall {s : Store} {now : Nat} {caller : AccountId}
    {name : Bytes} {s' : Store} (hInv : Inv s)
    (h : create_fall_proposal s now caller name = .ok s') : Inv s' := by
  simp only [create_fall_proposal] at h
  cases htok : alook s.tokens name with
  | none =>
    simp only [htok] at h
    exact Outcome.noConfusion h
  | some t =>
    simp only [htok] at h
    injection h with h3
    subst h3
    exact inv3_put_nonvoting hInv (fun hc => ProposalState.noConfusion hc)

theorem inv_review {env : Env} {s : Store} {caller : AccountId} {id : ProposalId}
    {stand : Bool} {s' : Store} (hInv : Inv s)
    (h : review_proposal env s caller id stand = .ok s') : Inv s' := by
  simp only [review_proposal] at h
  cases heq : alook s.proposals id with
  | none =>
    simp only [heq] at h
    split_ifs at h
    all_goals exact Outcome.noConfusion h
  | some p =>
    simp only [heq] at h
    split_ifs at h
    all_goals first
    | exact Outcome.noConfusion h
    | (injection h with h5
       subst h5
       exact inv3_update_same hInv heq rfl rfl)

theorem inv_vote {s : Store} {now : Nat} {caller : AccountId} {id : ProposalId}
    {amount age_idx : Nat} {stand : Bool} {s' : Store} (hInv : Inv s)
    (h : vote_proposal s now caller id amount age_idx stand = .ok s') : Inv s' := by
  simp only [vote_proposal] at h
  cases heq : alook s.proposals id with
  | none =>
    simp only [heq] at h
    exact Outcome.noConfusion h
  | some p =>
    simp only [heq] at h
    cases hres : s.balances.reserve caller amount with
    | error e =>
      simp only [hres] at h
      split_ifs at h
      all_goals exact Outcome.noConfusion h
    | ok bal1 =>
      simp only [hres] at h
      cases hg : get_goals_from_staking amount age_idx with
      | none =>
        simp only [hg] at h
        split_ifs at h
        all_goals exact Outcome.noConfusion h
      | some goals =>
        simp only [hg] at h
        split_ifs at h
        all_goals first
        | exact Outcome.noConfusion h
        | (injection h with h5
           subst h5
           exact inv3_update_same hInv heq rfl rfl)

theorem inv_receive_rewards {s : Store} {caller : AccountId} {id : ProposalId}
    {s' : Store} (hInv : Inv s) (h : receive_rewards s caller id = .ok s') :
    Inv s' := by
  simp only [receive_rewards] at h
  cases heq : alook s.proposals id with
  | none =>
    simp only [heq] at h
    split_ifs at h
    all_goals exact Outcome.noConfusion h
  | some p =>
    simp only [heq] at h
    cases hsi : get_staking_info s caller id with
    | none =>
      simp only [hsi] at h
      split_ifs at h
      all_goals exact Outcome.noConfusion h
    | some info =>
      simp only [hsi] at h
      cases hg : get_goals_from_staking info.staking_amount info.age_idx with
      | none =>
        simp only [hg] at h
        split_ifs at h
        all_goals exact Outcome.noConfusion h
      | some goals =>
        simp only [hg] at h
        cases hdep : depositIntoExisting s.balances caller
            (u128mul TOTAL_REWARDS goals / u128add p.vote_goals.1 p.vote_goals.2) with
        | error e =>
          simp only [hdep] at h
          split_ifs at h
          all_goals exact Outcome.noConfusion h
        | ok bal1 =>
          simp only [hdep] at h
          split_ifs at h
          all_goals first
          | exact Outcome.noConfusion h
          | (injection h with h4
             subst h4
             exact inv3_update_same hInv heq rfl rfl)

theorem inv_unstake {s : Store} {now : Nat} {caller : AccountId} {id : ProposalId}
    {s' : Store} (hInv : Inv s) (h : unstake s now caller id = .ok s') : Inv s' := by
  simp only [unstake] at h
  cases hsi : get_staking_info s caller id with
  | none =>
    simp only [hsi] at h
    exact Outcome.noConfusion h
  | some info =>
    simp only [hsi] at h
    cases hrow : AGE_DAY.get? info.age_idx with
    | none =>
      simp only [hrow] at h
      exact Outcome.noConfusion h
    | some row =>
      simp only [hrow] at h
      split_ifs at h
      all_goals first
      | exact Outcome.noConfusion h
      | (injection h with h4
         subst h4
         exact hInv)

theorem inv_burn {s : Store} {caller : AccountId} {amount : Nat} {s' : Store}
    (hInv : Inv s) (h : burn_extrinsic s caller amount = .ok s') : Inv s' := by
  simp only [burn_extrinsic] at h
  injection h with h4
  subst h4
  exact hInv

theorem inv_applyCall (env : Env) (s : Store) (now : Nat) (c : Call)
    (hInv : Inv s) : Inv (applyCall env s now c) := by
  unfold applyCall
  cases hd : dispatch env s now c with
  | ok s' =>
    cases c with
    | create_list caller url icon name symbol ms cs target =>
      exact inv_create_list hInv hd
    | update_list caller id url icon name symbol ms cs target =>
      exact inv_update_list hInv hd
    | delete_list caller id => exact inv_remove_proposal hInv hd
    | create_delist caller name => exact inv_create_delist hInv hd
    | delete_delist caller id => exact inv_remove_proposal hInv hd
    | create_rise caller name => exact inv_create_rise hInv hd
    | delete_rise caller id => exact inv_remove_proposal hInv hd
    | create_fall caller name => exact inv_create_fall hInv hd
    | delete_fall caller id => exact inv_remove_proposal hInv hd
    | review caller id stand => exact inv_review hInv hd
    | vote caller id amount age_idx stand => exact inv_vote hInv hd
    | receiveRewardsCall caller id => exact inv_receive_rewards hInv hd
    | unstakeCall caller id => exact inv_unstake hInv hd
    | burnCall caller amount => exact inv_burn hInv hd
  | err e => exact hInv
  | panic => exact hInv

/-! ### Invariant preservation: the end-of-block scheduler -/

theorem inv_check_pending {s : Store} {id : ProposalId} {p : Proposal}
    {duration now : Nat} (hInv : Inv s) (hl : alook s.proposals id = some p)
    (hp : p.state ≠ ProposalState.Voting) :
    Inv (check_proposal_pending s id p duration now) := by
  simp only [check_proposal_pending]
  split_ifs with h1
  · exact inv3_put_nonvoting hInv (fun hc => ProposalState.noConfusion hc)
  · exact hInv

theorem list_or_delist_of_not_rise_fall {t : ProposalType}
    (h2 : ¬(t = ProposalType.Rise ∨ t = ProposalType.Fall)) :
    t = ProposalType.List ∨ t = ProposalType.Delist := by
  cases t with
  | List => exact Or.inl rfl
  | Delist => exact Or.inr rfl
  | Rise => exact absurd (Or.inl rfl) h2
  | Fall => exact absurd (Or.inr rfl) h2

theorem inv_check_reviewed {s : Store} {id : ProposalId} {p : Proposal}
    {duration now : Nat} (hInv : Inv s) (hl : alook s.proposals id = some p)
    (hp : p.state ≠ ProposalState.Voting) :
    Inv (check_proposal_reviewed s id p duration now) := by
  simp only [check_proposal_reviewed]
  by_cases h1 : duration > REVIEW_DURATION
  · rw [if_pos h1]
    by_cases h2 : p.proposal_type = ProposalType.Rise ∨ p.proposal_type = ProposalType.Fall
    · rw [if_pos h2]
      by_cases h3 : p.review_goals.1 ≥ u64mul 2 p.review_goals.2 ∧
          u64add p.review_goals.1 p.review_goals.2 > 0
      · rw [if_pos h3]
        exact inv3_put_nonvoting hInv (fun hc => ProposalState.noConfusion hc)
      · rw [if_neg h3]
        exact inv3_put_nonvoting hInv (fun hc => ProposalState.noConfusion hc)
    · rw [if_neg h2]
      by_cases h4 : s.votingProposal.isSome
      · rw [if_pos h4]
        exact hInv
      · rw [if_neg h4]
        have hvp : s.votingProposal = none := Option.not_isSome_iff_eq_none.mp h4
        have hInv' : Inv3 s.proposals none := by
          rw [← hvp]
          exact hInv
        by_cases h5 : p.proposal_type = ProposalType.Delist
        · rw [if_pos h5]
          by_cases h6 : p.review_goals.1 > p.review_goals.2
          · rw [if_pos h6]
            exact inv3_to_voting hInv' rfl (Or.inr h5)
          · rw [if_neg h6]
            exact inv3_put_nonvoting hInv (fun hc => ProposalState.noConfusion hc)
        · rw [if_neg h5]
          have hlist : p.proposal_type = ProposalType.List := by
            rcases list_or_delist_of_not_rise_fall h2 with h | h
            · exact h
            · exact absurd h h5
          by_cases h7 : p.review_goals.1 ≥ u64mul 2 p.review_goals.2 ∧
              u64add p.review_goals.1 p.review_goals.2 > 0
          · rw [if_pos h7]
            exact inv3_to_voting hInv' rfl (Or.inl hlist)
          · rw [if_neg h7]
            exact inv3_put_nonvoting hInv (fun hc => ProposalState.noConfusion hc)
  · rw [if_neg h1]
    exact hInv

theorem inv_check_voted {s : Store} {id : ProposalId} {p : Proposal}
    {duration now : Nat} (hInv : Inv s) (hl : alook s.proposals id = some p)
    (hp : p.state = ProposalState.Voting) :
    Inv (check_proposal_voted s id p duration now) := by
  have hty := hInv.2.1 (id, p) (alook_mem hl) hp
  dsimp only at hty
  simp only [check_proposal_voted]
  by_cases h1 : duration > VOTE_DURATION
  · rw [if_pos h1]
    refine inv3_from_voting hInv hl hp ?_
    rcases hty with hL | hD
    · simp only [hL, if_pos (Eq.refl ProposalType.List)]
      split_ifs <;> (intro hc; exact ProposalState.noConfusion hc)
    · have hnl : p.proposal_type ≠ ProposalType.List := by
        rw [hD]; intro hc; exact ProposalType.noConfusion hc
      simp only [hD, if_neg hnl, if_pos (Eq.refl ProposalType.Delist)]
      split_ifs <;> (intro hc; exact ProposalState.noConfusion hc)
  · rw [if_neg h1]
    exact hInv

theorem closed_state_ne_voting {st : ProposalState} (h : st ≠ ProposalState.Voting) :
    (if (if st = ProposalState.Approved then ProposalState.ApprovedClosed else st) =
        ProposalState.Rejected then ProposalState.RejectedClosed
     else if st = ProposalState.Approved then ProposalState.ApprovedClosed else st) ≠
      ProposalState.Voting := by
  cases st <;> simp_all

theorem inv_check_closed {env : Env} {s : Store} {id : ProposalId} {p : Proposal}
    {duration now : Nat} (hInv : Inv s) (hl : alook s.proposals id = some p)
    (hp : p.state ≠ ProposalState.Voting) :
    Inv (check_proposal_closed env s id p duration now) := by
  simp only [check_proposal_closed]
  by_cases h1 : duration > RECEIVE_REWARDS_DURATION
  · rw [if_pos h1]
    exact inv3_put_nonvoting hInv (closed_state_ne_voting hp)
  · rw [if_neg h1]
    exact hInv

theorem inv_deal {env : Env} {s : Store} {id : ProposalId} {p : Proposal}
    {now : Nat} (hInv : Inv s) (hl : alook s.proposals id = some p) :
    Inv (deal_proposal env s id p now) := by
  unfold deal_proposal
  cases hst : p.state with
  | Pending =>
    exact inv_check_pending hInv hl
      (by rw [hst]; intro hc; exact ProposalState.noConfusion hc)
  | Reviewing =>
    exact inv_check_reviewed hInv hl
      (by rw [hst]; intro hc; exact ProposalState.noConfusion hc)
  | Voting => exact inv_check_voted hInv hl hst
  | Approved =>
    exact inv_check_closed hInv hl
      (by rw [hst]; intro hc; exact ProposalState.noConfusion hc)
  | Rejected =>
    exact inv_check_closed hInv hl
      (by rw [hst]; intro hc; exact ProposalState.noConfusion hc)
  | ApprovedClosed => exact hInv
  | RejectedClosed => exact hInv

theorem check_pending_alook_ne (s : Store) (id : ProposalId) (p : Proposal)
    (duration now : Nat) (k : ProposalId) (hk : k ≠ id) :
    alook (check_proposal_pending s id p duration now).proposals k =
      alook s.proposals k := by
  simp only [check_proposal_pending]
  split_ifs
  · exact alook_aput_ne _ _ _ _ hk
  · rfl

theorem check_reviewed_alook_ne (s : Store) (id : ProposalId) (p : Proposal)
    (duration now : Nat) (k : ProposalId) (hk : k ≠ id) :
    alook (check_proposal_reviewed s id p duration now).proposals k =
      alook s.proposals k := by
  simp only [check_proposal_reviewed]
  split_ifs <;> first
  | rfl
  | exact alook_aput_ne _ _ _ _ hk

theorem check_voted_alook_ne (s : Store) (id : ProposalId) (p : Proposal)
    (duration now : Nat) (k : ProposalId) (hk : k ≠ id) :
    alook (check_proposal_voted s id p duration now).proposals k =
      alook s.proposals k := by
  simp only [check_proposal_voted]
  split_ifs <;> first
  | rfl
  | exact alook_aput_ne _ _ _ _ hk

theorem check_closed_alook_ne (env : Env) (s : Store) (id : ProposalId)
    (p : Proposal) (duration now : Nat) (k : ProposalId) (hk : k ≠ id) :
    alook (check_proposal_closed env s id p duration now).proposals k =
      alook s.proposals k := by
  simp only [check_proposal_closed]
  split_ifs <;> first
  | rfl
  | exact alook_aput_ne _ _ _ _ hk

/-- The scheduler writes `Proposals` only under the key it is dealing. -/
theorem deal_alook_ne (env : Env) (s : Store) (id : ProposalId) (p : Proposal)
    (now : Nat) (k : ProposalId) (hk : k ≠ id) :
    alook (deal_proposal env s id p now).proposals k = alook s.proposals k := by
  unfold deal_proposal
  cases hst : p.state with
  | Pending => exact check_pending_alook_ne s id p _ now k hk
  | Reviewing => exact check_reviewed_alook_ne s id p _ now k hk
  | Voting => exact check_voted_alook_ne s id p _ now k hk
  | Approved => exact check_closed_alook_ne env s id p _ now k hk
  | Rejected => exact check_closed_alook_ne env s id p _ now k hk
  | ApprovedClosed => rfl
  | RejectedClosed => rfl

theorem inv_finalize_aux (env : Env) (now : Nat) :
    ∀ (l : List (ProposalId × Proposal)) (acc : Store),
    Inv acc → (∀ e ∈ l, alook acc.proposals e.1 = some e.2) →
    (l.map Prod.fst).Nodup →
    Inv (l.foldl (fun a e => deal_proposal env a e.1 e.2 now) acc)
  | [], acc, hInv, _, _ => hInv
  | e :: rest, acc, hInv, hacc, hnd => by
    simp only [List.foldl_cons]
    have hnd' : (rest.map Prod.fst).Nodup := by
      simp only [List.map_cons, List.nodup_cons] at hnd
      exact hnd.2
    have hhead : e.1 ∉ rest.map Prod.fst := by
      simp only [List.map_cons, List.nodup_cons] at hnd
      exact hnd.1
    apply inv_finalize_aux env now rest (deal_proposal env acc e.1 e.2 now)
    · exact inv_deal hInv (hacc e (List.mem_cons_self _ _))
    · intro e' he'
      have hne : e'.1 ≠ e.1 := by
        intro hc
        exact hhead (hc ▸ List.mem_map_of_mem Prod.fst he')
      rw [deal_alook_ne env acc e.1 e.2 now e'.1 hne]
      exact hacc e' (List.mem_cons_of_mem _ he')
    · exact hnd'

theorem inv_finalize (env : Env) (s : Store) (now : Nat) (hInv : Inv s) :
    Inv (on_finalize env s now) := by
  unfold on_finalize
  exact inv_finalize_aux env now s.proposals s hInv
    (fun e he => mem_alook hInv.1 he) hInv.1

theorem reachable_inv {env : Env} {s : Store} (h : Reachable env s) : Inv s := by
  induction h with
  | genesis b =>
    refine ⟨?_, ?_, ?_⟩
    · simp [genesisStore, keysDistinct]
    · intro e he; simp [genesisStore] at he
    · simp only [genesisStore, vpOk]
      intro e he
      simp at he
  | extrinsic s now c hr ih => exact inv_applyCall env s now c ih
  | finalize s now hr ih => exact inv_finalize env s now ih

/-! ### Counting Voting proposals -/

theorem countVoting_zero {ps : List (ProposalId × Proposal)}
    (h : ∀ e ∈ ps, e.2.state ≠ ProposalState.Voting) :
    (ps.filter (fun e => e.2.state == ProposalState.Voting)).length = 0 := by
  rw [List.length_eq_zero, List.filter_eq_nil]
  intro a ha
  simp only [beq_iff_eq]
  exact h a ha

theorem countVoting_le_one :
    ∀ (ps : List (ProposalId × Proposal)) (v : ProposalId),
    keysDistinct ps →
    (∀ e ∈ ps, e.2.state = ProposalState.Voting → e.1 = v) →
    (ps.filter (fun e => e.2.state == ProposalState.Voting)).length ≤ 1
  | [], _, _, _ => by simp
  | (a, b) :: rest, v, hD, huniq => by
    simp only [keysDistinct, List.map_cons, List.nodup_cons] at hD
    by_cases hbs : b.state = ProposalState.Voting
    · have hav : a = v := huniq (a, b) (List.mem_cons_self _ _) hbs
      have hbv : ((a, b).2.state == ProposalState.Voting) = true := by
        show (b.state == ProposalState.Voting) = true
        rw [hbs]
        rfl
      rw [List.filter_cons, hbv]
      simp only [if_true, List.length_cons]
      have hrest : ∀ e ∈ rest, e.2.state ≠ ProposalState.Voting := by
        intro e he hstv
        have h1 := huniq e (List.mem_cons_of_mem _ he) hstv
        apply hD.1
        rw [← hav] at h1
        exact h1 ▸ List.mem_map_of_mem Prod.fst he
      rw [countVoting_zero hrest]
    · have hb : ((a, b).2.state == ProposalState.Voting) = false := by
        simp only [beq_eq_false_iff_ne, ne_eq]
        exact hbs
      rw [List.filter_cons, hb]
      simp only [Bool.false_eq_true, if_false]
      exact countVoting_le_one rest v hD.2
        (fun e he => huniq e (List.mem_cons_of_mem _ he))

/-! ### The u32 id-generator wrap -/

/-- The store `c9s4` (a single Voting proposal under id 0, singleton set,
counter at 1) is reachable from genesis. -/
theorem c9s4_reachable : Reachable exEnv c9s4 :=
  Reachable.finalize c9s3 1200003
    (Reachable.extrinsic c9s2 600002 (Call.review 3 0 true)
      (Reachable.finalize c9s1 600001
        (Reachable.extrinsic (genesisStore bEmpty) 0
          (Call.create_list 1 [10] [11] [12] [13] 500 100 MarketType.Growth)
          (Reachable.genesis bEmpty))))

/-- Each spam step is an extrinsic, so the spam sequence stays reachable. -/
theorem spam_reachable {s : Store} (hs : Reachable exEnv s) (n : Nat) :
    Reachable exEnv (spam n s) := by
  induction n with
  | zero => exact hs
  | succ n ih =>
    simp only [spam]
    exact Reachable.extrinsic (spam n s) 1200004 spamCall ih

/-- On a store with no registered tokens and zero issuance, one `spamCall`
create succeeds: it writes a fresh Pending List proposal under the current
counter value and advances the counter mod `2^32`. -/
theorem spam_step (t : Store) (htok : t.tokens = [])
    (hiss : t.balances.issuance = 0) :
    applyCall exEnv t 1200004 spamCall =
      { t with idGenerator := (t.idGenerator + 1) % U32,
               proposals := (aput t.proposals t.idGenerator
                 (newListProposal t.idGenerator 1 [10] [11] [12] [13] 500 100
                   MarketType.Growth 1200004)) } := by
  have hcheck : TOTAL_REWARDS ≤ u64sub MAX_SUPPLY (sat64 t.balances.issuance) := by
    rw [hiss]
    decide
  have hname : ¬((alook t.tokens [12]).isSome = true) := by
    rw [htok]
    simp [alook]
  simp only [applyCall, spamCall, dispatch, create_list_proposal, if_pos hcheck,
    if_neg hname]

/-- Through the spam sequence, tokens and balances never change (so every
step succeeds), the singleton is untouched, and the counter advances mod
`2^32`. -/
theorem spam_props (s : Store) (hs0 : s.tokens = [])
    (hs1 : s.balances.issuance = 0) (hg : s.idGenerator < U32) :
    ∀ n : Nat, (spam n s).tokens = [] ∧ (spam n s).balances = s.balances ∧
      (spam n s).votingProposal = s.votingProposal ∧
      (spam n s).idGenerator = (s.idGenerator + n) % U32
  | 0 => ⟨hs0, rfl, rfl, (Nat.mod_eq_of_lt hg).symm⟩
  | n + 1 => by
    obtain ⟨h0, h1, h2, h3⟩ := spam_props s hs0 hs1 hg n
    have hiss : (spam n s).balances.issuance = 0 := by rw [h1]; exact hs1
    have hstep := spam_step (spam n s) h0 hiss
    simp only [spam, hstep]
    refine ⟨h0, h1, h2, ?_⟩
    show ((spam n s).idGenerator + 1) % U32 = (s.idGenerator + (n + 1)) % U32
    have hU : U32 = 4294967296 := by norm_num [U32]
    rw [h3, hU]
    omega

/-- Unfolding equation of `spam` at a successor index. -/
theorem spam_succ (n : Nat) (s : Store) :
    spam (n + 1) s = applyCall exEnv (spam n s) 1200004 spamCall := rfl

/-- Field equations of one `spamCall` create: the proposal map gains the new
Pending entry under the current counter value, and the singleton is
untouched. -/
theorem spam_step_fields (t : Store) (htok : t.tokens = [])
    (hiss : t.balances.issuance = 0) :
    (applyCall exEnv t 1200004 spamCall).proposals =
      aput t.proposals t.idGenerator
        (newListProposal t.idGenerator 1 [10] [11] [12] [13] 500 100
          MarketType.Growth 1200004) ∧
    (applyCall exEnv t 1200004 spamCall).votingProposal = t.votingProposal := by
  rw [spam_step t htok hiss]
  exact ⟨rfl, rfl⟩

set_option linter.constructorNameAsVariable false in
/-- After `2^32` further creates on top of `c9s4` the counter has wrapped all
the way around: the last create reuses id 0 and overwrites the live Voting
proposal with a fresh Pending one, so no proposal is left in Voting state
while the singleton still points at id 0. -/
theorem spam_wrap_no_voting :
    VotingCount (spam U32 c9s4) = 0 ∧
    (spam U32 c9s4).votingProposal = some 0 := by
  have hg : c9s4.idGenerator < U32 := by decide
  have hvp4 : c9s4.votingProposal = some 0 := by decide
  obtain ⟨h0, h1, h2, h3⟩ :=
    spam_props c9s4 (by decide) (by decide) hg (U32 - 1)
  have hiss : (spam (U32 - 1) c9s4).balances.issuance = 0 := by
    rw [h1]
    decide
  have hgen : (spam (U32 - 1) c9s4).idGenerator = 0 := by
    rw [h3]
    have hU : U32 = 4294967296 := by norm_num [U32]
    have hid : c9s4.idGenerator = 1 := by decide
    rw [hid, hU]
  obtain ⟨hprop, hvpeq⟩ := spam_step_fields (spam (U32 - 1) c9s4) h0 hiss
  rw [hgen] at hprop
  obtain ⟨hD, hT, hV⟩ := reachable_inv (spam_reachable c9s4_reachable (U32 - 1))
  rw [h2, hvp4] at hV
  simp only [vpOk] at hV
  have h32 : U32 = (U32 - 1) + 1 := by norm_num [U32]
  constructor
  · rw [h32, spam_succ]
    simp only [VotingCount]
    rw [hprop]
    apply countVoting_zero
    intro e he hst
    have hD' := keysDistinct_aput hD 0
      (newListProposal 0 1 [10] [11] [12] [13] 500 100 MarketType.Growth 1200004)
    rcases mem_aput he with h4 | h4
    · rw [h4] at hst
      exact ProposalState.noConfusion hst
    · have hkey : e.1 = 0 := hV e h4 hst
      have hx := mem_alook hD' he
      rw [hkey, alook_aput_self] at hx
      injection hx with hx2
      rw [← hx2] at hst
      exact ProposalState.noConfusion hst
  · rw [h32, spam_succ, hvpeq, h2, hvp4]

/-! ### Scheduler idempotence infrastructure -/

theorem inert_mono {b b' : Bool} (hb : b = true → b' = true) {now : Nat}
    {q : Proposal} (h : inert b now q) : inert b' now q := by
  cases hstq : q.state
  all_goals simp only [inert, hstq] at h ⊢
  all_goals try exact h
  rcases h with h | ⟨hty, hvp⟩
  · exact Or.inl h
  · exact Or.inr ⟨hty, hb hvp⟩

theorem inert_of_pending_fail {b : Bool} {now : Nat} {q : Proposal}
    (h1 : q.state = ProposalState.Pending)
    (h2 : ¬(u64sub now q.timestamp > ALLOW_MODIFY_DURATION)) : inert b now q := by
  simp only [inert, h1]
  exact h2

theorem inert_of_reviewing_fail {b : Bool} {now : Nat} {q : Proposal}
    (h1 : q.state = ProposalState.Reviewing)
    (h2 : ¬(u64sub now q.timestamp > REVIEW_DURATION)) : inert b now q := by
  simp only [inert, h1]
  exact Or.inl h2

theorem inert_of_reviewing_deferred {b : Bool} {now : Nat} {q : Proposal}
    (h1 : q.state = ProposalState.Reviewing)
    (hty : q.proposal_type = ProposalType.List ∨ q.proposal_type = ProposalType.Delist)
    (hb : b = true) : inert b now q := by
  simp only [inert, h1]
  exact Or.inr ⟨hty, hb⟩

theorem inert_of_voting_fail {b : Bool} {now : Nat} {q : Proposal}
    (h1 : q.state = ProposalState.Voting)
    (h2 : ¬(u64sub now q.timestamp > VOTE_DURATION)) : inert b now q := by
  simp only [inert, h1]
  exact h2

theorem inert_of_rewards_fail {b : Bool} {now : Nat} {q : Proposal}
    (h1 : q.state = ProposalState.Approved ∨ q.state = ProposalState.Rejected)
    (h2 : ¬(u64sub now q.timestamp > RECEIVE_REWARDS_DURATION)) : inert b now q := by
  rcases h1 with h1 | h1 <;> simp only [inert, h1] <;> exact h2

theorem inert_of_closed {b : Bool} {now : Nat} {q : Proposal}
    (h1 : q.state = ProposalState.ApprovedClosed ∨
      q.state = ProposalState.RejectedClosed) : inert b now q := by
  rcases h1 with h1 | h1 <;> simp only [inert, h1] <;> trivial

theorem inert_of_reviewing_ts_now {b : Bool} {now : Nat} {q : Proposal}
    (h1 : q.state = ProposalState.Reviewing) (h2 : q.timestamp = now) :
    inert b now q := by
  apply inert_of_reviewing_fail h1
  rw [h2, u64sub_self]
  decide

theorem inert_of_voting_ts_now {b : Bool} {now : Nat} {q : Proposal}
    (h1 : q.state = ProposalState.Voting) (h2 : q.timestamp = now) :
    inert b now q := by
  apply inert_of_voting_fail h1
  rw [h2, u64sub_self]
  decide

theorem inert_of_rewards_ts_now {b : Bool} {now : Nat} {q : Proposal}
    (h1 : q.state = ProposalState.Approved ∨ q.state = ProposalState.Rejected)
    (h2 : q.timestamp = now) : inert b now q := by
  apply inert_of_rewards_fail h1
  rw [h2, u64sub_self]
  decide

/-- A proposal the `inert` predicate covers is left untouched by the
scheduler. -/
theorem deal_noop {env : Env} {s : Store} {id : ProposalId} {q : Proposal}
    {now : Nat} (h : inert s.votingProposal.isSome now q) :
    deal_proposal env s id q now = s := by
  unfold deal_proposal
  cases hst : q.state with
  | Pending =>
    simp only [inert, hst] at h
    simp only [check_proposal_pending, if_neg h]
  | Reviewing =>
    simp only [inert, hst] at h
    rcases h with h | ⟨hty, hvp⟩
    · simp only [check_proposal_reviewed, if_neg h]
    · by_cases hdur : u64sub now q.timestamp > REVIEW_DURATION
      · have h2 : ¬(q.proposal_type = ProposalType.Rise ∨
            q.proposal_type = ProposalType.Fall) := by
          rcases hty with h | h <;> rw [h] <;> intro hc <;>
            rcases hc with hc | hc <;> exact ProposalType.noConfusion hc
        simp only [check_proposal_reviewed, if_pos hdur, if_neg h2, if_pos hvp]
      · simp only [check_proposal_reviewed, if_neg hdur]
  | Voting =>
    simp only [inert, hst] at h
    simp only [check_proposal_voted, if_neg h]
  | Approved =>
    simp only [inert, hst] at h
    simp only [check_proposal_closed, if_neg h]
  | Rejected =>
    simp only [inert, hst] at h
    simp only [check_proposal_closed, if_neg h]
  | ApprovedClosed => rfl
  | RejectedClosed => rfl

/-- If every stored proposal is inert, the whole scheduler pass is the
identity. -/
theorem finalize_of_all_inert {env : Env} {s : Store} {now : Nat}
    (h : ∀ e ∈ s.proposals, inert s.votingProposal.isSome now e.2) :
    on_finalize env s now = s := by
  unfold on_finalize
  have aux : ∀ l : List (ProposalId × Proposal),
      (∀ e ∈ l, inert s.votingProposal.isSome now e.2) →
      l.foldl (fun a e => deal_proposal env a e.1 e.2 now) s = s := by
    intro l
    induction l with
    | nil => intro _; rfl
    | cons e rest ih =>
      intro hl
      simp only [List.foldl_cons]
      rw [deal_noop (hl e (List.mem_cons_self _ _))]
      exact ih (fun e' he' => hl e' (List.mem_cons_of_mem _ he'))
  exact aux s.proposals h

/-- One scheduler step on an accurate snapshot of a proposal that is not an
expiring vote: keys stay distinct, the singleton can only become set, the
dealt entry ends up inert, and no other entry appears. -/
theorem deal_step (env : Env) (acc : Store) (id : ProposalId) (p : Proposal)
    (now : Nat) (hD : keysDistinct acc.proposals)
    (hl : alook acc.proposals id = some p)
    (hnv : p.state = ProposalState.Voting →
      ¬(u64sub now p.timestamp > VOTE_DURATION)) :
    keysDistinct (deal_proposal env acc id p now).proposals ∧
    (acc.votingProposal.isSome = true →
      (deal_proposal env acc id p now).votingProposal.isSome = true) ∧
    (∀ q', alook (deal_proposal env acc id p now).proposals id = some q' →
      inert (deal_proposal env acc id p now).votingProposal.isSome now q') ∧
    (∀ e ∈ (deal_proposal env acc id p now).proposals,
      e ∈ acc.proposals ∨ e.1 = id) := by
  unfold deal_proposal
  cases hst : p.state with
  | Pending =>
    simp only [check_proposal_pending]
    split_ifs with h1
    · refine ⟨keysDistinct_aput hD id _, fun hx => hx, ?_, ?_⟩
      · intro q' hq'
        rw [alook_aput_self] at hq'
        injection hq' with hq
        subst hq
        exact inert_of_reviewing_ts_now rfl rfl
      · intro e he
        rcases mem_aput he with h | h
        · exact Or.inr (by rw [h])
        · exact Or.inl h
    · refine ⟨hD, fun hx => hx, ?_, fun e he => Or.inl he⟩
      intro q' hq'
      rw [hl] at hq'
      injection hq' with hq
      subst hq
      exact inert_of_pending_fail hst h1
  | Reviewing =>
    simp only [check_proposal_reviewed]
    by_cases h1 : u64sub now p.timestamp > REVIEW_DURATION
    · rw [if_pos h1]
      by_cases h2 : p.proposal_type = ProposalType.Rise ∨
          p.proposal_type = ProposalType.Fall
      · rw [if_pos h2]
        by_cases h3 : p.review_goals.1 ≥ u64mul 2 p.review_goals.2 ∧
            u64add p.review_goals.1 p.review_goals.2 > 0
        · rw [if_pos h3]
          refine ⟨keysDistinct_aput hD id _, fun hx => hx, ?_, ?_⟩
          · intro q' hq'
            rw [alook_aput_self] at hq'
            injection hq' with hq
            subst hq
            exact inert_of_rewards_ts_now (Or.inl rfl) rfl
          · intro e he
            rcases mem_aput he with h | h
            · exact Or.inr (by rw [h])
            · exact Or.inl h
        · rw [if_neg h3]
          refine ⟨keysDistinct_aput hD id _, fun hx => hx, ?_, ?_⟩
          · intro q' hq'
            rw [alook_aput_self] at hq'
            injection hq' with hq
            subst hq
            exact inert_of_closed (Or.inr rfl)
          · intro e he
            rcases mem_aput he with h | h
            · exact Or.inr (by rw [h])
            · exact Or.inl h
      · rw [if_neg h2]
        by_cases h4 : acc.votingProposal.isSome
        · rw [if_pos h4]
          refine ⟨hD, fun hx => hx, ?_, fun e he => Or.inl he⟩
          intro q' hq'
          rw [hl] at hq'
          injection hq' with hq
          subst hq
          exact inert_of_reviewing_deferred hst
            (list_or_delist_of_not_rise_fall h2) h4
        · rw [if_neg h4]
          by_cases h5 : p.proposal_type = ProposalType.Delist
          · rw [if_pos h5]
            by_cases h6 : p.review_goals.1 > p.review_goals.2
            · rw [if_pos h6]
              refine ⟨keysDistinct_aput hD id _, fun _ => rfl, ?_, ?_⟩
              · intro q' hq'
                rw [alook_aput_self] at hq'
                injection hq' with hq
                subst hq
                exact inert_of_voting_ts_now rfl rfl
              · intro e he
                rcases mem_aput he with h | h
                · exact Or.inr (by rw [h])
                · exact Or.inl h
            · rw [if_neg h6]
              refine ⟨keysDistinct_aput hD id _, fun hx => hx, ?_, ?_⟩
              · intro q' hq'
                rw [alook_aput_self] at hq'
                injection hq' with hq
                subst hq
                exact inert_of_closed (Or.inr rfl)
              · intro e he
                rcases mem_aput he with h | h
                · exact Or.inr (by rw [h])
                · exact Or.inl h
          · rw [if_neg h5]
            by_cases h7 : p.review_goals.1 ≥ u64mul 2 p.review_goals.2 ∧
                u64add p.review_goals.1 p.review_goals.2 > 0
            · rw [if_pos h7]
              refine ⟨keysDistinct_aput hD id _, fun _ => rfl, ?_, ?_⟩
              · intro q' hq'
                rw [alook_aput_self] at hq'
                injection hq' with hq
                subst hq
                exact inert_of_voting_ts_now rfl rfl
              · intro e he
                rcases mem_aput he with h | h
                · exact Or.inr (by rw [h])
                · exact Or.inl h
            · rw [if_neg h7]
              refine ⟨keysDistinct_aput hD id _, fun hx => hx, ?_, ?_⟩
              · intro q' hq'
                rw [alook_aput_self] at hq'
                injection hq' with hq
                subst hq
                exact inert_of_closed (Or.inr rfl)
              · intro e he
                rcases mem_aput he with h | h
                · exact Or.inr (by rw [h])
                · exact Or.inl h
    · rw [if_neg h1]
      refine ⟨hD, fun hx => hx, ?_, fun e he => Or.inl he⟩
      intro q' hq'
      rw [hl] at hq'
      injection hq' with hq
      subst hq
      exact inert_of_reviewing_fail hst h1
  | Voting =>
    have hng := hnv hst
    simp only [check_proposal_voted, if_neg hng]
    refine ⟨hD, fun hx => hx, ?_, fun e he => Or.inl he⟩
    intro q' hq'
    rw [hl] at hq'
    injection hq' with hq
    subst hq
    exact inert_of_voting_fail hst hng
  | Approved =>
    simp only [check_proposal_closed, hst]
    by_cases h1 : u64sub now p.timestamp > RECEIVE_REWARDS_DURATION
    · rw [if_pos h1]
      refine ⟨keysDistinct_aput hD id _, fun hx => hx, ?_, ?_⟩
      · intro q' hq'
        rw [alook_aput_self] at hq'
        injection hq' with hq
        subst hq
        exact inert_of_closed (Or.inl (by rfl))
      · intro e he
        rcases mem_aput he with h | h
        · exact Or.inr (by rw [h])
        · exact Or.inl h
    · rw [if_neg h1]
      refine ⟨hD, fun hx => hx, ?_, fun e he => Or.inl he⟩
      intro q' hq'
      rw [hl] at hq'
      injection hq' with hq
      subst hq
      exact inert_of_rewards_fail (Or.inl hst) h1
  | Rejected =>
    simp only [check_proposal_closed, hst]
    by_cases h1 : u64sub now p.timestamp > RECEIVE_REWARDS_DURATION
    · rw [if_pos h1]
      refine ⟨keysDistinct_aput hD id _, fun hx => hx, ?_, ?_⟩
      · intro q' hq'
        rw [alook_aput_self] at hq'
        injection hq' with hq
        subst hq
        exact inert_of_closed (Or.inr (by rfl))
      · intro e he
        rcases mem_aput he with h | h
        · exact Or.inr (by rw [h])
        · exact Or.inl h
    · rw [if_neg h1]
      refine ⟨hD, fun hx => hx, ?_, fun e he => Or.inl he⟩
      intro q' hq'
      rw [hl] at hq'
      injection hq' with hq
      subst hq
      exact inert_of_rewards_fail (Or.inr hst) h1
  | ApprovedClosed =>
    refine ⟨hD, fun hx => hx, ?_, fun e he => Or.inl he⟩
    intro q' hq'
    rw [hl] at hq'
    injection hq' with hq
    subst hq
    exact inert_of_closed (Or.inl hst)
  | RejectedClosed =>
    refine ⟨hD, fun hx => hx, ?_, fun e he => Or.inl he⟩
    intro q' hq'
    rw [hl] at hq'
    injection hq' with hq
    subst hq
    exact inert_of_closed (Or.inr hst)

/-- After one scheduler pass over snapshots with no expiring vote, every
stored proposal is inert with respect to the resulting singleton. -/
theorem pass1_inert (env : Env) (now : Nat) :
    ∀ (l : List (ProposalId × Proposal)) (acc : Store),
    keysDistinct acc.proposals →
    (l.map Prod.fst).Nodup →
    (∀ e ∈ l, alook acc.proposals e.1 = some e.2) →
    (∀ e ∈ l, e.2.state = ProposalState.Voting →
      ¬(u64sub now e.2.timestamp > VOTE_DURATION)) →
    (∀ e ∈ acc.proposals,
      inert acc.votingProposal.isSome now e.2 ∨ e.1 ∈ l.map Prod.fst) →
    ∀ e ∈ (l.foldl (fun a e => deal_proposal env a e.1 e.2 now) acc).proposals,
      inert ((l.foldl (fun a e =>
        deal_proposal env a e.1 e.2 now) acc).votingProposal.isSome) now e.2
  | [], acc, _, _, _, _, hIn => by
    intro e he
    rcases hIn e he with h | h
    · exact h
    · simp at h
  | f :: rest, acc, hD, hnd, hacc, hnV, hIn => by
    simp only [List.foldl_cons]
    have hlf : alook acc.proposals f.1 = some f.2 :=
      hacc f (List.mem_cons_self _ _)
    obtain ⟨hD', hmono, hself, hsub⟩ :=
      deal_step env acc f.1 f.2 now hD hlf (hnV f (List.mem_cons_self _ _))
    have hnd' : (rest.map Prod.fst).Nodup := by
      simp only [List.map_cons, List.nodup_cons] at hnd
      exact hnd.2
    have hhead : f.1 ∉ rest.map Prod.fst := by
      simp only [List.map_cons, List.nodup_cons] at hnd
      exact hnd.1
    apply pass1_inert env now rest (deal_proposal env acc f.1 f.2 now) hD' hnd'
    · intro e' he'
      have hne : e'.1 ≠ f.1 := by
        intro hc
        exact hhead (hc ▸ List.mem_map_of_mem Prod.fst he')
      rw [deal_alook_ne env acc f.1 f.2 now e'.1 hne]
      exact hacc e' (List.mem_cons_of_mem _ he')
    · exact fun e he => hnV e (List.mem_cons_of_mem _ he)
    · intro e he
      rcases hsub e he with hold | hisf
      · rcases hIn e hold with hin | hkey
        · exact Or.inl (inert_mono hmono hin)
        · simp only [List.map_cons, List.mem_cons] at hkey
          rcases hkey with h1 | h1
          · left
            have hm := mem_alook hD' he
            rw [h1] at hm
            exact hself e.2 hm
          · exact Or.inr h1
      · left
        have hm := mem_alook hD' he
        rw [hisf] at hm
        exact hself e.2 hm

/-- Scheduler idempotence, given that no vote is currently expiring. -/
theorem finalize_idem (env : Env) (s : Store) (now : Nat)
    (hD : keysDistinct s.proposals)
    (hnov : ∀ e ∈ s.proposals, e.2.state = ProposalState.Voting →
      ¬(u64sub now e.2.timestamp > VOTE_DURATION)) :
    on_finalize env (on_finalize env s now) now = on_finalize env s now := by
  apply finalize_of_all_inert
  have := pass1_inert env now s.proposals s hD hD
    (fun e he => mem_alook hD he) hnov
    (fun e he => Or.inr (List.mem_map_of_mem Prod.fst he))
  exact this

/-! ### Claim theorems -/

/-- C1: the code never reads `wheather_received_reward`.  In `c1Store` voter 7
already claimed (flag `true`, 90909 units credited), yet a further
`receive_rewards(0)` call does not fail with a domain error: it succeeds and
credits the same 90909 again (free balance 90909 → 181818), so the claim that
an already-rewarded stake may not claim again is violated by the code. -/
theorem C1_double_claim_succeeds :
    (get_staking_info c1Store 7 0).map StakingInfo.wheather_received_reward =
      some true ∧
    stateOf c1Store 0 = some ProposalState.Approved ∧
    outcomeFree (receive_rewards c1Store 7 0) 7 = some 181818 := by decide

/-- C2 (amended): in every store reachable by extrinsics and end-of-block
hooks, at most one proposal is in `Voting` state, the number of Voting
proposals is bounded by the cardinality of the `VotingProposal` singleton,
and when the singleton is set every Voting proposal carries its id.  The
claimed equality of count and cardinality fails once the `u32` id generator
wraps: the `2^32`-th create reuses id 0 and overwrites the live Voting
proposal, leaving the singleton set with no Voting proposal
(see the wraparound counterexample). -/
theorem C2_at_most_one_voting {env : Env} {s : Store} (h : Reachable env s) :
    VotingCount s ≤ 1 ∧ VotingCount s ≤ cardVP s.votingProposal ∧
    (∀ v, s.votingProposal = some v →
      ∀ e ∈ s.proposals, e.2.state = ProposalState.Voting → e.1 = v) := by
  obtain ⟨hD, hT, hV⟩ := reachable_inv h
  cases hvp : s.votingProposal with
  | none =>
    rw [hvp] at hV
    simp only [vpOk] at hV
    have h0 : VotingCount s = 0 := countVoting_zero hV
    refine ⟨by rw [h0]; exact Nat.zero_le 1, by rw [h0]; exact Nat.zero_le _, ?_⟩
    intro v hv
    exact Option.noConfusion hv
  | some v =>
    rw [hvp] at hV
    simp only [vpOk] at hV
    have h1 : VotingCount s ≤ 1 := countVoting_le_one s.proposals v hD hV
    refine ⟨h1, ?_, ?_⟩
    · simpa [cardVP] using h1
    · intro w hw
      injection hw with hw2
      subst hw2
      exact hV

/-- C2 witness: the bound instantiated at the concretely reachable store
`c9s4`, which holds one Voting proposal with the singleton set to its id. -/
theorem C2_at_most_one_voting_witness :
    VotingCount c9s4 ≤ 1 ∧ VotingCount c9s4 ≤ cardVP c9s4.votingProposal :=
  ⟨(C2_at_most_one_voting (Reachable.finalize c9s3 1200003
      (Reachable.extrinsic c9s2 600002 (Call.review 3 0 true)
        (Reachable.finalize c9s1 600001
          (Reachable.extrinsic (genesisStore bEmpty) 0
            (Call.create_list 1 [10] [11] [12] [13] 500 100 MarketType.Growth)
            (Reachable.genesis bEmpty)))))).1,
   (C2_at_most_one_voting (Reachable.finalize c9s3 1200003
      (Reachable.extrinsic c9s2 600002 (Call.review 3 0 true)
        (Reachable.finalize c9s1 600001
          (Reachable.extrinsic (genesisStore bEmpty) 0
            (Call.create_list 1 [10] [11] [12] [13] 500 100 MarketType.Growth)
            (Reachable.genesis bEmpty)))))).2.1⟩

/-- C2 counterexample: after `2^32` further creates on the reachable store
`c9s4` the `u32` id generator wraps, the reused id 0 overwrites the live
Voting proposal, and the resulting reachable store has the singleton set
(cardinality 1) with zero Voting proposals — the claimed equality
`VotingCount = cardVP` is false. -/
theorem C2_wraparound_breaks_equality :
    Reachable exEnv (spam U32 c9s4) ∧
    VotingCount (spam U32 c9s4) ≠ cardVP (spam U32 c9s4).votingProposal := by
  obtain ⟨h0, h2⟩ := spam_wrap_no_voting
  refine ⟨spam_reachable c9s4_reachable U32, ?_⟩
  rw [h0, h2]
  decide

/-- C3 counterexample: `c3Delist` is a Delist proposal in Reviewing whose
review window has expired and whose quorum fails (0 vs 0), while proposal 9
holds the `VotingProposal` singleton.  The scheduler leaves it in Reviewing —
it is NOT moved to RejectedClosed as the claim asserts. -/
theorem C3_deferred_despite_failed_quorum :
    c3Delist.proposal_type = ProposalType.Delist ∧
    c3Delist.state = ProposalState.Reviewing ∧
    u64sub 600001 c3Delist.timestamp > REVIEW_DURATION ∧
    ¬(c3Delist.review_goals.1 > c3Delist.review_goals.2) ∧
    c3Store.votingProposal = some 9 ∧
    stateOf (on_finalize exEnv c3Store 600001) 1 = some ProposalState.Reviewing ∧
    stateOf (on_finalize exEnv c3Store 600001) 1 ≠
      some ProposalState.RejectedClosed := by decide

/-- C3 (amended): an expired List/Delist review whose quorum fails moves to
RejectedClosed only when `VotingProposal` is unset; when the singleton is set
the proposal is deferred — the scheduler leaves the whole store unchanged. -/
theorem C3_review_timeout_quorum_fail (env : Env) (s : Store) (id : ProposalId)
    (p : Proposal) (now : Nat)
    (hst : p.state = ProposalState.Reviewing)
    (hty : p.proposal_type = ProposalType.List ∨
      p.proposal_type = ProposalType.Delist)
    (hdur : u64sub now p.timestamp > REVIEW_DURATION)
    (hqd : p.proposal_type = ProposalType.Delist →
      ¬(p.review_goals.1 > p.review_goals.2))
    (hql : p.proposal_type = ProposalType.List →
      ¬(p.review_goals.1 ≥ u64mul 2 p.review_goals.2 ∧
        u64add p.review_goals.1 p.review_goals.2 > 0)) :
    (s.votingProposal = none →
      deal_proposal env s id p now = { s with proposals := (aput s.proposals id
        { p with state := ProposalState.RejectedClosed, timestamp := now }) }) ∧
    (s.votingProposal.isSome = true → deal_proposal env s id p now = s) := by
  have h2 : ¬(p.proposal_type = ProposalType.Rise ∨
      p.proposal_type = ProposalType.Fall) := by
    rcases hty with h | h <;> rw [h] <;> intro hc <;> rcases hc with hc | hc <;>
      exact ProposalType.noConfusion hc
  constructor
  · intro hvp
    have h4 : ¬(s.votingProposal.isSome = true) := by
      rw [hvp]
      simp
    simp only [deal_proposal, hst, check_proposal_reviewed, if_pos hdur,
      if_neg h2, if_neg h4]
    rcases hty with hL | hD
    · have hnd : ¬(p.proposal_type = ProposalType.Delist) := by
        rw [hL]
        intro hc
        exact ProposalType.noConfusion hc
      rw [if_neg hnd, if_neg (hql hL)]
    · rw [if_pos hD, if_neg (hqd hD)]
  · intro hvp
    simp only [deal_proposal, hst, check_proposal_reviewed, if_pos hdur,
      if_neg h2, if_pos hvp]

/-- C3 witness: the amended statement applied to the concrete deferred Delist
review of `c3Store`. -/
theorem C3_review_timeout_quorum_fail_witness :
    (c3Store.votingProposal = none →
      deal_proposal exEnv c3Store 1 c3Delist 600001 =
        { c3Store with proposals := (aput c3Store.proposals 1
          { c3Delist with state := ProposalState.RejectedClosed,
                          timestamp := 600001 }) }) ∧
    (c3Store.votingProposal.isSome = true →
      deal_proposal exEnv c3Store 1 c3Delist 600001 = c3Store) :=
  C3_review_timeout_quorum_fail exEnv c3Store 1 c3Delist 600001 (by decide)
    (by decide) (by decide) (by decide) (by decide)

/-- C4: for a voter of an Approved/Rejected proposal with a stake record,
`receive_rewards` credits exactly
`⌊TOTAL_REWARDS * (amount * AGE_DAY[age_idx].vote_age) / (S + O)⌋` (128-bit
multiply-then-divide, no overflow under the stated bounds), increments total
issuance by it, and decrements the proposal's `rewards_remainder` by the same
value. -/
theorem C4_receive_rewards_formula (s : Store) (caller : AccountId)
    (id : ProposalId) (p : Proposal) (info : StakingInfo) (age : Nat × Nat)
    (hl : alook s.proposals id = some p)
    (hvoter : (s.votersOf id).contains caller = true)
    (hst : p.state = ProposalState.Approved ∨ p.state = ProposalState.Rejected)
    (hsi : get_staking_info s caller id = some info)
    (hrow : AGE_DAY.get? info.age_idx = some age)
    (hW : info.staking_amount * age.1 < U128)
    (htot : p.vote_goals.1 + p.vote_goals.2 < U128)
    (htot0 : p.vote_goals.1 + p.vote_goals.2 ≠ 0)
    (hmul : TOTAL_REWARDS * (info.staking_amount * age.1) < U128)
    (hcap : TOTAL_REWARDS * (info.staking_amount * age.1) /
        (p.vote_goals.1 + p.vote_goals.2) ≤
      u128sub MAX_SUPPLY s.balances.issuance)
    (hrem : TOTAL_REWARDS * (info.staking_amount * age.1) /
        (p.vote_goals.1 + p.vote_goals.2) ≤ p.rewards_remainder)
    (hremlt : p.rewards_remainder < U128) :
    ∃ s', receive_rewards s caller id = .ok s' ∧
      s'.balances.freeOf caller = s.balances.freeOf caller +
        TOTAL_REWARDS * (info.staking_amount * age.1) /
          (p.vote_goals.1 + p.vote_goals.2) ∧
      alook s'.proposals id = some { p with rewards_remainder :=
        p.rewards_remainder - TOTAL_REWARDS * (info.staking_amount * age.1) /
          (p.vote_goals.1 + p.vote_goals.2) } ∧
      s'.balances.issuance = s.balances.issuance +
        TOTAL_REWARDS * (info.staking_amount * age.1) /
          (p.vote_goals.1 + p.vote_goals.2) := by
  have hnv : ¬¬((s.votersOf id).contains caller = true) := not_not_intro hvoter
  have hgoals : get_goals_from_staking info.staking_amount info.age_idx =
      some (info.staking_amount * age.1) := by
    simp only [get_goals_from_staking, hrow, u128mul_eq_mul hW]
  have htotal : u128add p.vote_goals.1 p.vote_goals.2 =
      p.vote_goals.1 + p.vote_goals.2 := u128add_eq_add htot
  have hdep : depositIntoExisting s.balances caller
      (TOTAL_REWARDS * (info.staking_amount * age.1) /
        (p.vote_goals.1 + p.vote_goals.2)) =
      .ok { s.balances with
        free := aput s.balances.free caller (s.balances.freeOf caller +
          TOTAL_REWARDS * (info.staking_amount * age.1) /
            (p.vote_goals.1 + p.vote_goals.2)),
        issuance := s.balances.issuance +
          TOTAL_REWARDS * (info.staking_amount * age.1) /
            (p.vote_goals.1 + p.vote_goals.2) } := by
    simp only [depositIntoExisting, if_pos hcap]
  simp only [receive_rewards, if_neg hnv, hl, if_neg (not_not_intro hst), hsi,
    hgoals, htotal, if_neg htot0, u128mul_eq_mul hmul, hdep]
  refine ⟨_, rfl, ?_, ?_, rfl⟩
  · simp [Balances.freeOf, alook_aput_self]
  · rw [alook_aput_self]
    rw [u128sub_eq_sub hrem hremlt]

/-- C4 witness: the spec's literal scenario — supporter with weight 1000000 of
a total 1100000 draws `100000·1000000/1100000 = 90909`; the remainder drops to
`100000 − 90909`. -/
theorem C4_receive_rewards_formula_witness :
    ∃ s', receive_rewards c4Store 7 0 = .ok s' ∧
      s'.balances.freeOf 7 = 0 + 90909 ∧
      alook s'.proposals 0 =
        some { c1Proposal with rewards_remainder := 100000 - 90909 } ∧
      s'.balances.issuance = 200000 + 90909 :=
  C4_receive_rewards_formula c4Store 7 0
    { c1Proposal with rewards_remainder := TOTAL_REWARDS } c4Stake
    (1000, MINUTE) (by decide) (by decide) (by decide) (by decide) (by decide)
    (by decide) (by decide) (by decide) (by decide) (by decide) (by decide)
    (by decide)

/-- C5 counterexample: in `c5Store` the issuance already equals `MAX_SUPPLY`,
so the treasury deposit of the 500-unit remainder must fail — yet after the
scheduler runs, the Approved proposal has moved to ApprovedClosed (and the
issuance is unchanged), contradicting the claim that it stays in Approved for
a retry. -/
theorem C5_close_ignores_deposit_failure :
    ¬(c5Proposal.rewards_remainder ≤
      u128sub MAX_SUPPLY c5Store.balances.issuance) ∧
    stateOf (on_finalize exEnv c5Store 600001) 0 =
      some ProposalState.ApprovedClosed ∧
    stateOf (on_finalize exEnv c5Store 600001) 0 ≠ some ProposalState.Approved ∧
    (on_finalize exEnv c5Store 600001).balances.issuance = MAX_SUPPLY := by
  decide

/-- C5 (amended): when the close transition fires and the treasury deposit
fails on the issuance cap, the proposal still transitions to
ApprovedClosed/RejectedClosed with its timestamp updated; the failure is
silently ignored and the balances are left unchanged — there is no retry. -/
theorem C5_close_transition_despite_deposit_failure (env : Env) (s : Store)
    (id : ProposalId) (p : Proposal) (now : Nat)
    (hst : p.state = ProposalState.Approved ∨ p.state = ProposalState.Rejected)
    (hdur : u64sub now p.timestamp > RECEIVE_REWARDS_DURATION)
    (hfail : ¬(p.rewards_remainder ≤ u128sub MAX_SUPPLY s.balances.issuance)) :
    stateOf (deal_proposal env s id p now) id =
      some (if p.state = ProposalState.Approved then ProposalState.ApprovedClosed
        else ProposalState.RejectedClosed) ∧
    (deal_proposal env s id p now).balances = s.balances := by
  have hbal : (match depositIntoExisting s.balances env.treasury
      p.rewards_remainder with
      | Except.ok b => b
      | Except.error _ => s.balances) = s.balances := by
    simp only [depositIntoExisting, if_neg hfail]
  rcases hst with hA | hR
  · simp only [deal_proposal, hA, check_proposal_closed, if_pos hdur]
    constructor
    · simp only [stateOf]
      rw [alook_aput_self]
      rfl
    · exact hbal
  · simp only [deal_proposal, hR, check_proposal_closed, if_pos hdur]
    constructor
    · simp only [stateOf]
      rw [alook_aput_self]
      rfl
    · exact hbal

/-- C5 witness: the amended statement at the concrete capped store. -/
theorem C5_close_transition_despite_deposit_failure_witness :
    stateOf (deal_proposal exEnv c5Store 0 c5Proposal 600001) 0 =
      some ProposalState.ApprovedClosed ∧
    (deal_proposal exEnv c5Store 0 c5Proposal 600001).balances =
      c5Store.balances :=
  C5_close_transition_despite_deposit_failure exEnv c5Store 0 c5Proposal 600001
    (by decide) (by decide) (by decide)

/-- C6: `vote_proposal` with `age_idx = 6` on an existing Voting proposal by a
funded caller not yet in the voter list panics (the source unwraps
`AGE_DAY.get(6)`), instead of failing with the `InvalidVoteAge` domain
error. -/
theorem C6_invalid_age_idx_panics :
    stateOf c6Store 0 = some ProposalState.Voting ∧
    (c6Store.votersOf 0).contains 8 = false ∧
    5000 ≤ c6Store.balances.freeOf 8 ∧
    vote_proposal c6Store 5 8 0 5000 6 true = Outcome.panic ∧
    vote_proposal c6Store 5 8 0 5000 6 true ≠
      Outcome.err IboError.InvalidVoteAge := by decide

/-- C7 counterexample: `c7Store` holds an expired quorum-passing List review
(id 3) deferred behind the singleton of the expired vote (id 5).  One
scheduler pass rejects 5 and frees the singleton; a second pass at the same
timestamp then moves 3 into Voting, so running the scheduler twice differs
from running it once. -/
theorem C7_scheduler_not_idempotent :
    on_finalize exEnv (on_finalize exEnv c7Store 600001) 600001 ≠
      on_finalize exEnv c7Store 600001 := by decide

/-- C7 (amended): the end-of-block pass is idempotent whenever no proposal in
`Voting` state has exceeded `VOTE_DURATION` at that block — in particular
whenever no proposal is in Voting state at all.  (The general claim fails: a
Reviewing proposal deferred behind the singleton in the first pass can
transition in the second pass once the singleton is cleared.) -/
theorem C7_scheduler_idempotent_no_expiring_vote (env : Env) (s : Store)
    (now : Nat) (hD : keysDistinct s.proposals)
    (hnov : ∀ e ∈ s.proposals, e.2.state = ProposalState.Voting →
      ¬(u64sub now e.2.timestamp > VOTE_DURATION)) :
    on_finalize env (on_finalize env s now) now = on_finalize env s now :=
  finalize_idem env s now hD hnov

/-- C7 witness: idempotence at the concrete store `c9s1` (one Pending
proposal, nothing in Voting). -/
theorem C7_scheduler_idempotent_no_expiring_vote_witness :
    on_finalize exEnv (on_finalize exEnv c9s1 600001) 600001 =
      on_finalize exEnv c9s1 600001 :=
  C7_scheduler_idempotent_no_expiring_vote exEnv c9s1 600001
    (by show (c9s1.proposals.map Prod.fst).Nodup; decide) (by decide)

/-- C8: for a caller holding a stake record on `id`, `unstake` succeeds —
unreserving the staked amount and removing the record — precisely when
`now − timestamp` has reached the lock period of the stake's age row, and
fails with `StillInStaking` (store unchanged, an error dispatch) before
that. -/
theorem C8_unstake_lock_period (s : Store) (now : Nat) (caller : AccountId)
    (id : ProposalId) (info : StakingInfo) (age : Nat × Nat)
    (hsi : get_staking_info s caller id = some info)
    (hrow : AGE_DAY.get? info.age_idx = some age)
    (hts : info.timestamp ≤ now) (hnow : now < U64) :
    (age.2 ≤ now - info.timestamp →
      unstake s now caller id = .ok { s with
        balances := s.balances.unreserve caller info.staking_amount,
        staking := aput s.staking caller (removeFirst (s.stakingOf caller) info) }) ∧
    (now - info.timestamp < age.2 →
      unstake s now caller id = .err IboError.StillInStaking) := by
  have hsub : u64sub now info.timestamp = now - info.timestamp :=
    u64sub_eq_sub hts hnow
  constructor
  · intro hok
    have hn : ¬(u64sub now info.timestamp < age.2) := by
      rw [hsub]
      omega
    simp only [unstake, hsi, hrow, if_neg hn]
  · intro hfail
    have hy : u64sub now info.timestamp < age.2 := by
      rw [hsub]
      exact hfail
    simp only [unstake, hsi, hrow, if_pos hy]

/-- C8 witness: the stake of `c8Store` (locked 3 minutes from t = 1000),
unstaked at exactly `timestamp + lock_period = 181000`. -/
theorem C8_unstake_lock_period_witness :
    ((2250, 3 * MINUTE).2 ≤ 181000 - c8Stake.timestamp →
      unstake c8Store 181000 7 0 = .ok { c8Store with
        balances := c8Store.balances.unreserve 7 c8Stake.staking_amount,
        staking := aput c8Store.staking 7
          (removeFirst (c8Store.stakingOf 7) c8Stake) }) ∧
    (181000 - c8Stake.timestamp < (2250, 3 * MINUTE).2 →
      unstake c8Store 181000 7 0 = .err IboError.StillInStaking) :=
  C8_unstake_lock_period c8Store 181000 7 0 c8Stake (2250, 3 * MINUTE)
    (by decide) (by decide) (by decide) (by decide)

/-- C9: the concrete trace `c9s1..c9s6` is reachable from genesis: a List
proposal is created, reviewed and opened for voting; account 2 votes with
`amount = 0`, which is accepted (weight 0); the vote closes Rejected with
total weight 0; `receive_rewards` then divides by the zero total and panics —
it does not return a domain error. -/
theorem C9_zero_weight_reward_division_panics :
    Reachable exEnv c9s6 ∧
    c9s5.votersOf 0 = [2] ∧
    (alook c9s5.proposals 0).map Proposal.vote_goals = some (0, 0) ∧
    stateOf c9s6 0 = some ProposalState.Rejected ∧
    receive_rewards c9s6 2 0 = Outcome.panic := by
  refine ⟨?_, by decide, by decide, by decide, by decide⟩
  exact Reachable.finalize c9s5 1800005
    (Reachable.extrinsic c9s4 1200004 (Call.vote 2 0 0 0 true)
      (Reachable.finalize c9s3 1200003
        (Reachable.extrinsic c9s2 600002 (Call.review 3 0 true)
          (Reachable.finalize c9s1 600001
            (Reachable.extrinsic (genesisStore bEmpty) 0
              (Call.create_list 1 [10] [11] [12] [13] 500 100 MarketType.Growth)
              (Reachable.genesis bEmpty))))))

/-- C10: `update_list_proposal` checks only existence, Pending state and
ownership of the target (plus freshness of the new token name) — never the
proposal's kind and never the issuance headroom — and rewrites the stored
proposal into a List proposal with zeroed tallies,
`rewards_remainder = TOTAL_REWARDS` and a fresh timestamp. -/
theorem C10_update_list_rewrites_any_pending (s : Store) (now : Nat)
    (caller : AccountId) (id : ProposalId) (p : Proposal)
    (url icon name symbol : Bytes) (ms cs : Nat) (target : MarketType)
    (hl : alook s.proposals id = some p)
    (hown : p.proposer = caller) (hpend : p.state = ProposalState.Pending)
    (hname : alook s.tokens name = none) :
    update_list_proposal s now caller id url icon name symbol ms cs target =
      .ok { s with proposals := (aput s.proposals id
        (newListProposal id caller url icon name symbol ms cs target now)) } := by
  have h1 : ¬((alook s.tokens name).isSome = true) := by
    rw [hname]
    simp
  have h2 : ¬(p.proposer ≠ caller) := not_not_intro hown
  have h3 : ¬(p.state ≠ ProposalState.Pending) := not_not_intro hpend
  simp only [update_list_proposal, if_neg h1, update_proposal, hl, if_neg h2,
    if_neg h3]

/-- C10 witness: a Pending *Delist* proposal, rewritten while the total
issuance already equals `MAX_SUPPLY` (where `create_list_proposal` would fail
its issuance check); the result is the fresh List proposal. -/
theorem C10_update_list_rewrites_any_pending_witness :
    c10Proposal.proposal_type = ProposalType.Delist ∧
    c10Store.balances.issuance = MAX_SUPPLY ∧
    update_list_proposal c10Store 77 1 0 [20] [21] [22] [23] 900 800
        MarketType.Main =
      .ok { c10Store with proposals := (aput c10Store.proposals 0
        (newListProposal 0 1 [20] [21] [22] [23] 900 800 MarketType.Main 77)) } :=
  ⟨by decide, by decide,
   C10_update_list_rewrites_any_pending c10Store 77 1 0 c10Proposal
     [20] [21] [22] [23] 900 800 MarketType.Main (by decide) (by decide)
     (by decide) (by decide)⟩

end Ibo
